/-
  Verification of the `ncd` process-supervisor engine (badvpn, src/ncd/ncd.c).

  The development shallowly embeds the per-process state machine of ncd.c:
  slot states (SSTATE_*), the two cursors AP/FP, the control functions
  `process_work` / `process_fight` / `process_advance` / `process_wait` /
  `process_retreat`, the wait-timer handler, the module-instance event and
  died callbacks, and the termination signal.  Module behaviour (GetVar,
  allocation success, instance-init success) is an oracle parameter, one per
  delivered callback, matching the module-capability contract.  The
  command-line front end (`parse_arguments`, `main`) is embedded separately.
-/
import Mathlib

namespace Ncd

/-! ## Data model (ncd.c structs) -/

/-- Slot states: SSTATE_CHILD / SSTATE_ADULT / SSTATE_DYING / SSTATE_FORGOTTEN. -/
inductive SState where
  | child
  | adult
  | dying
  | forgotten
deriving DecidableEq, Repr

/-- NCDValue: the value model (string or list of values). -/
inductive Value where
  | str (s : String)
  | lst (l : List Value)

/-- struct argument_elem: a literal value or a variable reference
`modname.varname` (varname is NULL when the reference has one component). -/
inductive ArgElem where
  | var (modname : String) (varname : Option String)
  | val (v : Value)

/-- struct statement: the compiled template of one configuration statement.
The module pointer is irrelevant to the supervisor logic and is omitted;
`name` is the optional exported name. -/
structure Statement where
  name : Option String
  args : List ArgElem

/-- struct process_statement: one slot of a process.  `inst_args` is the
materialized argument list, present while an instance is live. -/
structure Slot where
  s : Statement
  state : SState
  have_error : Bool
  error_until : Int
  inst_args : Option (List Value)

/-- struct process: the slot array plus the cursors and the wait timer.
`timer_armed` models whether `wait_timer` is currently armed in the reactor. -/
structure Process where
  statements : List Slot
  ap : Nat
  fp : Nat
  timer_armed : Bool

/-- Modelled from the spec: RETRY_TIME, the retry backoff constant defined in
ncd.h (not under src/); "a configured constant (domain: milliseconds;
typical 5000)". -/
def RETRY_TIME : Int := 5000

/-- Oracle for one callback dispatch: the outcomes the module layer may
produce while the engine runs (GetVar results, allocation successes for
NCDValue_InitCopy / NCDValue_ListAppend per argument position, and the
NCDModuleInst_Init outcome). -/
structure ModuleEnv where
  getVar : Nat → String → Option Value
  copyOk : Nat → Bool
  appendOk : Nat → Bool
  initOk : Bool

/-! ## Accessors -/

/-- State of slot `i` of the slot list (FORGOTTEN for out-of-range reads;
the engine never reads out of range). -/
def stateAtL (st : List Slot) (i : Nat) : SState :=
  ((st[i]?).map Slot.state).getD .forgotten

def stateAt (p : Process) (i : Nat) : SState :=
  stateAtL p.statements i

def nameAtL (st : List Slot) (i : Nat) : Option String :=
  (st[i]?).bind (fun sl => sl.s.name)

def haveErrAt (p : Process) (i : Nat) : Bool :=
  (((p.statements[i]?).map Slot.have_error).getD false)

def errUntilAt (p : Process) (i : Nat) : Int :=
  (((p.statements[i]?).map Slot.error_until).getD 0)

def instArgsAt (p : Process) (i : Nat) : Option (List Value) :=
  ((p.statements[i]?).bind Slot.inst_args)

def argsAt (p : Process) (i : Nat) : List ArgElem :=
  (((p.statements[i]?).map (fun sl => sl.s.args)).getD [])

/-- Replace slot `i` by `f slot[i]` (no-op out of range). -/
def updSlot (p : Process) (i : Nat) (f : Slot → Slot) : Process :=
  match p.statements[i]? with
  | some sl => { p with statements := p.statements.set i (f sl) }
  | none => p

/-! ## The advance path: argument materialization (process_advance lines 806-851) -/

/-- Error outcomes of argument materialization / instance init. -/
inductive AdvanceError where
  | unknownName (modname : String)
  | unresolvedVar (modname varname : String)
  | copyFail
  | appendFail
deriving DecidableEq, Repr

/-- The reference scan of process_advance:
`for (i = p->ap; i > 0; i--) { rps = &p->statements[i-1];
   if (rps->s.name && !strcmp(rps->s.name, arg->var.modname)) break; }`
Returns the slot index found, `none` when the loop falls through (`i == 0`). -/
def findRefStmt (st : List Slot) (i : Nat) (modname : String) : Option Nat :=
  match i with
  | 0 => none
  | j + 1 => if nameAtL st j = some modname then some j else findRefStmt st j modname

/-- The argument-materialization loop of process_advance.  `k` is the
position of the current argument (used to index the allocation oracle).
On success, returns the values in order; on the first failure, the
corresponding error (the C code then frees the partial list). -/
def buildArgs (env : ModuleEnv) (st : List Slot) (ap : Nat) :
    List ArgElem → Nat → Except AdvanceError (List Value)
  | [], _ => .ok []
  | .var modname varname :: rest, k =>
    match findRefStmt st ap modname with
    | none => .error (.unknownName modname)
    | some j =>
      let rv := varname.getD ""
      match env.getVar j rv with
      | none => .error (.unresolvedVar modname rv)
      | some v =>
        if env.appendOk k then
          (buildArgs env st ap rest (k + 1)).map (fun vs => v :: vs)
        else .error .appendFail
  | .val v :: rest, k =>
    if env.copyOk k then
      if env.appendOk k then
        (buildArgs env st ap rest (k + 1)).map (fun vs => v :: vs)
      else .error .appendFail
    else .error .copyFail

/-! ## The state machine (mutually reachable control functions) -/

/-- process_wait: arms the wait timer (BReactor_SetTimerAbsolute). -/
def process_wait (p : Process) : Process :=
  { p with timer_armed := true }

/-- process_statement_set_error combined with freeing inst_args: the slot
keeps its state, gains have_error with deadline now+RETRY_TIME, and its
materialized argument list is destroyed. -/
def markError (now : Int) (sl : Slot) : Slot :=
  { sl with have_error := true, error_until := now + RETRY_TIME, inst_args := none }

/-- The fail1 path of process_advance: destroy inst_args, set the slot error
(process_statement_set_error: have_error=1, error_until=now+RETRY_TIME),
then process_wait. -/
def advanceFail (now : Int) (p : Process) (i : Nat) : Process :=
  process_wait (updSlot p i (markError now))

/-- The success tail of process_advance: set slot AP to CHILD with its
materialized arguments, then increment both cursors. -/
def advanceSucceed (p : Process) (vs : List Value) : Process :=
  { updSlot p p.ap (fun sl => { sl with state := .child, inst_args := some vs }) with
    ap := p.ap + 1,
    fp := p.fp + 1 }

/-- The body of process_advance once `ps = &p->statements[p->ap]` is in
hand: wait when a fresh error deadline is pending, otherwise materialize the
arguments and initialize the instance. -/
def advanceWithSlot (env : ModuleEnv) (now : Int) (p : Process) (ps : Slot) : Process :=
  if ps.have_error = true ∧ now < ps.error_until then
    -- "check if we need to wait"
    process_wait p
  else
    match buildArgs env p.statements p.ap ps.s.args 0 with
    | .error _ => advanceFail now p p.ap
    | .ok vs =>
      if env.initOk then advanceSucceed p vs
      else advanceFail now p p.ap

/-- process_advance (lines 784-882). -/
def process_advance (env : ModuleEnv) (now : Int) (p : Process) : Process :=
  if p.ap = p.statements.length then
    -- victory
    p
  else
    match p.statements[p.ap]? with
    | none => p
    | some ps => advanceWithSlot env now p ps

/-- process_fight (lines 758-782). -/
def process_fight (env : ModuleEnv) (now : Int) (p : Process) : Process :=
  if p.ap = p.fp then
    if ¬ (0 < p.ap ∧ stateAt p (p.ap - 1) = .child) then
      process_advance env now p
    else p
  else
    match p.statements[p.fp - 1]? with
    | none => p
    | some ps =>
      if ps.state ≠ .dying then
        updSlot p (p.fp - 1) (fun sl => { sl with state := .dying })
      else p

/-- process_retreat (lines 914-946): `none` means the process was freed
(process_free, only when FP = 0). -/
def process_retreat (p : Process) : Option Process :=
  if p.fp = 0 then none
  else
    match p.statements[p.fp - 1]? with
    | none => some p
    | some ps =>
      if ps.state ≠ .dying then
        some { updSlot p (p.fp - 1) (fun sl => { sl with state := .dying }) with
          ap := min p.ap (p.fp - 1) }
      else some p

/-- process_work (lines 743-756): stop the wait timer, then retreat when
terminating, else fight. -/
def process_work (env : ModuleEnv) (now : Int) (terminating : Bool) (p : Process) :
    Option Process :=
  let p := { p with timer_armed := false }
  if terminating then process_retreat p
  else some (process_fight env now p)

/-- Clearing a slot's error flag (`p->statements[p->ap].have_error = 0`). -/
def clearErr (sl : Slot) : Slot :=
  { sl with have_error := false }

/-- process_wait_timer_handler (lines 899-912): the timer fired (and is
therefore no longer armed), clear have_error at AP, then advance. -/
def timerFire (env : ModuleEnv) (now : Int) (p : Process) : Process :=
  process_advance env now (updSlot { p with timer_armed := false } p.ap clearErr)

/-! ## World: one process plus the supervisor flag, and the event step -/

/-- The observable world for one process: `proc = none` once the process has
been freed; `terminating` is the supervisor's latched shutdown flag. -/
structure World where
  proc : Option Process
  terminating : Bool

/-- One externally delivered callback, with the module/allocation oracle and
the current time (btime_gettime) for that dispatch. -/
inductive Ev where
  | up (i : Nat) (env : ModuleEnv) (now : Int)
  | down (i : Nat) (env : ModuleEnv) (now : Int)
  | dying (i : Nat) (env : ModuleEnv) (now : Int)
  | died (i : Nat) (is_error : Bool) (env : ModuleEnv) (now : Int)
  | timer (env : ModuleEnv) (now : Int)
  | signal (env : ModuleEnv) (now : Int)

/-- process_statement_instance_handler_event, NCDMODULE_EVENT_UP branch. -/
def handleUp (env : ModuleEnv) (now : Int) (t : Bool) (p : Process) (i : Nat) :
    Option Process :=
  process_work env now t (updSlot p i (fun sl => { sl with state := .adult }))

/-- process_statement_instance_handler_event, NCDMODULE_EVENT_DOWN branch. -/
def handleDown (env : ModuleEnv) (now : Int) (t : Bool) (p : Process) (i : Nat) :
    Option Process :=
  let p1 := updSlot p i (fun sl => { sl with state := .child })
  process_work env now t { p1 with ap := min p1.ap (i + 1) }

/-- process_statement_instance_handler_event, NCDMODULE_EVENT_DYING branch. -/
def handleDying (env : ModuleEnv) (now : Int) (t : Bool) (p : Process) (i : Nat) :
    Option Process :=
  let p1 := updSlot p i (fun sl => { sl with state := .dying })
  process_work env now t { p1 with ap := min p1.ap i }

/-- recompute FP: `while (fp > 0 && statements[fp-1].state == FORGOTTEN) fp--`. -/
def recomputeFp (st : List Slot) : Nat → Nat
  | 0 => 0
  | n + 1 => if stateAtL st n = .forgotten then recomputeFp st n else n + 1

/-- The state update of process_statement_instance_handler_died: free the
instance and its arguments, set the slot FORGOTTEN, set or clear the error
flag, clamp AP to the slot index, and walk FP back over the trailing
FORGOTTEN slots.  (FP's recompute inspects only slot states, so clamping AP
first, as the C code does, commutes with it.) -/
def diedUpdate (now : Int) (p : Process) (i : Nat) (is_error : Bool) : Process :=
  let p1 := updSlot p i (fun sl =>
    { sl with
      state := .forgotten,
      inst_args := none,
      have_error := is_error,
      error_until := if is_error then now + RETRY_TIME else sl.error_until })
  { p1 with ap := min p1.ap i, fp := recomputeFp p1.statements p1.fp }

/-- process_statement_instance_handler_died (lines 1014-1053). -/
def handleDied (env : ModuleEnv) (now : Int) (t : Bool) (p : Process) (i : Nat)
    (is_error : Bool) : Option Process :=
  process_work env now t (diedUpdate now p i is_error)

/-- The step relation of the single-process world.  `none` means the event is
not enabled there (the module contract and the reactor forbid it): UP only
from CHILD, DOWN only from ADULT, DYING from CHILD/ADULT, died from a live
slot, the timer only when armed. -/
def stepW (w : World) (e : Ev) : Option World :=
  match e with
  | .signal env now =>
    -- signal_handler: if (!terminating) terminate();
    if w.terminating then some w
    else some { terminating := true, proc := w.proc.bind (process_work env now true) }
  | .timer env now =>
    match w.proc with
    | none => none
    | some p =>
      if p.timer_armed then some { w with proc := some (timerFire env now p) } else none
  | .up i env now =>
    match w.proc with
    | none => none
    | some p =>
      if stateAt p i = .child then
        some { w with proc := handleUp env now w.terminating p i }
      else none
  | .down i env now =>
    match w.proc with
    | none => none
    | some p =>
      if stateAt p i = .adult then
        some { w with proc := handleDown env now w.terminating p i }
      else none
  | .dying i env now =>
    match w.proc with
    | none => none
    | some p =>
      if stateAt p i = .child ∨ stateAt p i = .adult then
        some { w with proc := handleDying env now w.terminating p i }
      else none
  | .died i is_error env now =>
    match w.proc with
    | none => none
    | some p =>
      if stateAt p i ≠ .forgotten then
        some { w with proc := handleDied env now w.terminating p i is_error }
      else none

/-- process_new (lines 599-671): fresh slots, all FORGOTTEN, have_error=0,
AP=FP=0, timer initialized unarmed. -/
def initProcess (T : List Statement) : Process :=
  { statements := T.map (fun t =>
      { s := t, state := .forgotten, have_error := false, error_until := 0, inst_args := none }),
    ap := 0,
    fp := 0,
    timer_armed := false }

/-- The world right after process_new's initial process_work (terminating is
still false at construction time). -/
def initWorld (T : List Statement) (env : ModuleEnv) (now : Int) : World :=
  { proc := process_work env now false (initProcess T), terminating := false }

/-- Reachable worlds: the constructed world, closed under enabled events. -/
inductive Reachable : World → Prop where
  | init (T : List Statement) (env : ModuleEnv) (now : Int) : Reachable (initWorld T env now)
  | step {w : World} {e : Ev} {w' : World} :
      Reachable w → stepW w e = some w' → Reachable w'

/-- Run a list of events, sticking at the current world when an event is not
enabled (used to exhibit concrete reachable worlds). -/
def runEvsT (w : World) : List Ev → World
  | [] => w
  | e :: es =>
    match stepW w e with
    | some w' => runEvsT w' es
    | none => w

theorem runEvsT_reachable (evs : List Ev) (w : World) (h : Reachable w) :
    Reachable (runEvsT w evs) := by
  induction evs generalizing w with
  | nil => exact h
  | cons e es ih =>
    unfold runEvsT
    cases hs : stepW w e with
    | none => exact h
    | some w' => exact ih w' (Reachable.step h hs)

/-! ## Basic lemmas about the accessors -/

theorem updSlot_ap (p : Process) (i : Nat) (f : Slot → Slot) : (updSlot p i f).ap = p.ap := by
  unfold updSlot; cases p.statements[i]? <;> rfl

theorem updSlot_fp (p : Process) (i : Nat) (f : Slot → Slot) : (updSlot p i f).fp = p.fp := by
  unfold updSlot; cases p.statements[i]? <;> rfl

theorem updSlot_timer (p : Process) (i : Nat) (f : Slot → Slot) :
    (updSlot p i f).timer_armed = p.timer_armed := by
  unfold updSlot; cases p.statements[i]? <;> rfl

theorem updSlot_length (p : Process) (i : Nat) (f : Slot → Slot) :
    (updSlot p i f).statements.length = p.statements.length := by
  unfold updSlot; cases p.statements[i]? <;> simp

theorem get?_updSlot (p : Process) (i : Nat) (f : Slot → Slot) (j : Nat) :
    (updSlot p i f).statements[j]? =
      if j = i then (p.statements[i]?).map f else p.statements[j]? := by
  unfold updSlot
  cases h : p.statements[i]? with
  | none =>
    by_cases hj : j = i
    · subst hj; simp [h]
    · simp [hj]
  | some sl =>
    by_cases hj : j = i
    · subst hj
      simp only [List.getElem?_set_self', h]
      rfl
    · simp [List.getElem?_set_ne (fun hh => hj hh.symm), hj]

theorem stateAt_updSlot_ne (p : Process) (i : Nat) (f : Slot → Slot) (j : Nat)
    (hj : j ≠ i) : stateAt (updSlot p i f) j = stateAt p j := by
  simp [stateAt, stateAtL, get?_updSlot, hj]

theorem stateAt_updSlot_self {p : Process} {i : Nat} {sl : Slot}
    (h : p.statements[i]? = some sl) (f : Slot → Slot) :
    stateAt (updSlot p i f) i = (f sl).state := by
  simp [stateAt, stateAtL, get?_updSlot, h]

theorem haveErrAt_updSlot_ne (p : Process) (i : Nat) (f : Slot → Slot) (j : Nat)
    (hj : j ≠ i) : haveErrAt (updSlot p i f) j = haveErrAt p j := by
  simp [haveErrAt, get?_updSlot, hj]

theorem haveErrAt_updSlot_self {p : Process} {i : Nat} {sl : Slot}
    (h : p.statements[i]? = some sl) (f : Slot → Slot) :
    haveErrAt (updSlot p i f) i = (f sl).have_error := by
  simp [haveErrAt, get?_updSlot, h]

theorem stateAt_out_of_range {p : Process} {i : Nat}
    (h : p.statements.length ≤ i) : stateAt p i = .forgotten := by
  simp [stateAt, stateAtL, List.getElem?_eq_none h]

theorem lt_length_of_stateAt_ne_forgotten {p : Process} {i : Nat}
    (h : stateAt p i ≠ .forgotten) : i < p.statements.length := by
  by_contra hc
  exact h (stateAt_out_of_range (Nat.le_of_not_lt hc))

theorem exists_slot_of_lt_length {p : Process} {i : Nat}
    (h : i < p.statements.length) : ∃ sl, p.statements[i]? = some sl := by
  cases hg : p.statements[i]? with
  | none => exact absurd (List.getElem?_eq_none_iff.1 hg) (Nat.not_le_of_lt h)
  | some sl => exact ⟨sl, rfl⟩

/-! ## recomputeFp lemmas -/

theorem recomputeFp_le (st : List Slot) (n : Nat) : recomputeFp st n ≤ n := by
  induction n with
  | zero => simp [recomputeFp]
  | succ m ih =>
    unfold recomputeFp
    split
    · exact Nat.le_trans ih (Nat.le_succ m)
    · exact Nat.le_refl _

theorem recomputeFp_forgotten (st : List Slot) (n : Nat) :
    ∀ i, recomputeFp st n ≤ i → i < n → stateAtL st i = .forgotten := by
  induction n with
  | zero => intro i _ h2; omega
  | succ m ih =>
    intro i h1 h2
    unfold recomputeFp at h1
    by_cases hm : stateAtL st m = .forgotten
    · simp [hm] at h1
      by_cases him : i = m
      · subst him; exact hm
      · exact ih i h1 (by omega)
    · simp [hm] at h1; omega

theorem recomputeFp_pos_ne (st : List Slot) (n : Nat) (h : 0 < recomputeFp st n) :
    stateAtL st (recomputeFp st n - 1) ≠ .forgotten := by
  induction n with
  | zero => simp [recomputeFp] at h
  | succ m ih =>
    unfold recomputeFp at h ⊢
    by_cases hm : stateAtL st m = .forgotten
    · simp [hm] at h ⊢; exact ih h
    · simp [hm] at h ⊢

/-! ## The process invariant -/

/-- The reachable-state invariant of a process (the conjunction needed to
close the induction): the cursor ordering and prefix discipline asserted by
process_assert_pointers, FP minimality, the fact that a non-empty teardown
region always ends in a DYING slot, and the conditions under which the wait
timer can be armed. -/
structure Inv (p : Process) : Prop where
  ap_le_fp : p.ap ≤ p.fp
  fp_le_len : p.fp ≤ p.statements.length
  prefix_adult : ∀ i, i < p.ap - 1 → stateAt p i = .adult
  ap_top : 0 < p.ap → stateAt p (p.ap - 1) = .adult ∨ stateAt p (p.ap - 1) = .child
  tail_forgotten : ∀ i, p.fp ≤ i → stateAt p i = .forgotten
  fp_min : 0 < p.fp → stateAt p (p.fp - 1) ≠ .forgotten
  region_tail : p.ap < p.fp → stateAt p (p.fp - 1) = .dying
  timer_ok : p.timer_armed = true →
    p.ap = p.fp ∧ p.fp < p.statements.length ∧ haveErrAt p p.ap = true ∧
    (0 < p.ap → stateAt p (p.ap - 1) = .adult)

/-- The part of `Inv` that holds on entry to process_work mid-callback (after
a slot/cursor update, before fight/retreat has restored the region-tail and
timer clauses). -/
structure PreInv (p : Process) : Prop where
  ap_le_fp : p.ap ≤ p.fp
  fp_le_len : p.fp ≤ p.statements.length
  prefix_adult : ∀ i, i < p.ap - 1 → stateAt p i = .adult
  ap_top : 0 < p.ap → stateAt p (p.ap - 1) = .adult ∨ stateAt p (p.ap - 1) = .child
  tail_forgotten : ∀ i, p.fp ≤ i → stateAt p i = .forgotten
  fp_min : 0 < p.fp → stateAt p (p.fp - 1) ≠ .forgotten

theorem Inv.toPre {p : Process} (h : Inv p) : PreInv p :=
  ⟨h.ap_le_fp, h.fp_le_len, h.prefix_adult, h.ap_top, h.tail_forgotten, h.fp_min⟩

/-- The world invariant: every live process satisfies `Inv`, and under
`terminating` no wait timer is armed. -/
structure WInv (w : World) : Prop where
  proc_inv : ∀ p, w.proc = some p → Inv p
  term_disarm : w.terminating = true → ∀ p, w.proc = some p → p.timer_armed = false

/-! ## Preservation lemmas for the control functions -/

theorem stateAt_updSlot_stateInv {p : Process} {i : Nat} {f : Slot → Slot}
    (hf : ∀ sl, (f sl).state = sl.state) (j : Nat) :
    stateAt (updSlot p i f) j = stateAt p j := by
  by_cases hj : j = i
  · subst hj
    simp only [stateAt, stateAtL, get?_updSlot, if_pos rfl]
    cases p.statements[j]? with
    | none => rfl
    | some sl => simp [hf]
  · exact stateAt_updSlot_ne p i f j hj

theorem PreInv.updSlot_stateInv {p : Process} (h : PreInv p) {i : Nat} {f : Slot → Slot}
    (hf : ∀ sl, (f sl).state = sl.state) : PreInv (updSlot p i f) := by
  refine ⟨?_, ?_, ?_, ?_, ?_, ?_⟩ <;>
    simp only [updSlot_ap, updSlot_fp, updSlot_length, stateAt_updSlot_stateInv hf]
  · exact h.ap_le_fp
  · exact h.fp_le_len
  · exact h.prefix_adult
  · exact h.ap_top
  · exact h.tail_forgotten
  · exact h.fp_min

/-- An `Inv` when nothing is armed and the region is empty. -/
theorem inv_still {p : Process} (h : PreInv p) (hap : p.ap = p.fp)
    (htimer : p.timer_armed = false) : Inv p :=
  { ap_le_fp := h.ap_le_fp
    fp_le_len := h.fp_le_len
    prefix_adult := h.prefix_adult
    ap_top := h.ap_top
    tail_forgotten := h.tail_forgotten
    fp_min := h.fp_min
    region_tail := by omega
    timer_ok := by rw [htimer]; intro hh; cases hh }

/-- An `Inv` after process_wait arms the timer under its preconditions. -/
theorem inv_wait {p : Process} (h : PreInv p) (hap : p.ap = p.fp)
    (hlen : p.fp < p.statements.length) (herr : haveErrAt p p.ap = true)
    (htop : 0 < p.ap → stateAt p (p.ap - 1) = .adult) : Inv (process_wait p) := by
  have hsts : (process_wait p).statements = p.statements := rfl
  refine ⟨?_, ?_, ?_, ?_, ?_, ?_, ?_, ?_⟩ <;>
    simp only [process_wait, stateAt, stateAtL, haveErrAt, hsts]
  · exact h.ap_le_fp
  · exact h.fp_le_len
  · exact h.prefix_adult
  · exact h.ap_top
  · exact h.tail_forgotten
  · exact h.fp_min
  · omega
  · intro _
    refine ⟨hap, hlen, ?_, ?_⟩
    · exact herr
    · exact htop

theorem inv_advanceSucceed {p : Process} {ps : Slot} (vs : List Value)
    (h : PreInv p) (hap : p.ap = p.fp)
    (htop : 0 < p.ap → stateAt p (p.ap - 1) = .adult)
    (htimer : p.timer_armed = false)
    (hps : p.statements[p.ap]? = some ps) :
    Inv (advanceSucceed p vs) := by
  have hlt : p.ap < p.statements.length := by
    by_contra hc
    rw [List.getElem?_eq_none (Nat.le_of_not_lt hc)] at hps
    cases hps
  set f : Slot → Slot := fun sl => { sl with state := SState.child, inst_args := some vs }
    with hfdef
  set q : Process := advanceSucceed p vs with hq
  have hQap : q.ap = p.ap + 1 := rfl
  have hQfp : q.fp = p.fp + 1 := rfl
  have hQt : q.timer_armed = p.timer_armed := updSlot_timer p p.ap f
  have hQst : ∀ j, stateAt q j = stateAt (updSlot p p.ap f) j := fun _ => rfl
  have hQlen : q.statements.length = p.statements.length := updSlot_length p p.ap f
  have hop : ∀ j, j ≠ p.ap → stateAt q j = stateAt p j := by
    intro j hj
    rw [hQst j]
    exact stateAt_updSlot_ne p p.ap f j hj
  have hself : stateAt q p.ap = SState.child := by
    rw [hQst p.ap, stateAt_updSlot_self hps]
  constructor
  · rw [hQap, hQfp]; omega
  · rw [hQfp, hQlen]; omega
  · intro i hi
    rw [hQap] at hi
    have hi3 : i ≠ p.ap := by omega
    rw [hop i hi3]
    by_cases hc : i < p.ap - 1
    · exact h.prefix_adult i hc
    · have hieq : i = p.ap - 1 := by omega
      have h0 : 0 < p.ap := by omega
      exact hieq ▸ htop h0
  · intro _
    rw [hQap]
    simp only [Nat.add_sub_cancel]
    exact Or.inr hself
  · intro i hge
    rw [hQfp] at hge
    have hi3 : i ≠ p.ap := by omega
    rw [hop i hi3]
    exact h.tail_forgotten i (by omega)
  · intro _
    rw [hQfp]
    have : stateAt q p.fp = SState.child := hap ▸ hself
    simp only [Nat.add_sub_cancel, this]
    intro hc
    cases hc
  · rw [hQap, hQfp]
    omega
  · rw [hQt, htimer]
    intro hh
    cases hh

theorem advance_inv (env : ModuleEnv) (now : Int) {p : Process}
    (h : PreInv p) (hap : p.ap = p.fp)
    (htop : 0 < p.ap → stateAt p (p.ap - 1) = .adult)
    (htimer : p.timer_armed = false) :
    Inv (process_advance env now p) := by
  unfold process_advance
  by_cases hv : p.ap = p.statements.length
  · rw [if_pos hv]
    exact inv_still h hap htimer
  · rw [if_neg hv]
    have hlt : p.ap < p.statements.length := by
      have := h.fp_le_len; omega
    obtain ⟨ps, hps⟩ := exists_slot_of_lt_length hlt
    simp only [hps]
    unfold advanceWithSlot
    have herrAt : haveErrAt p p.ap = ps.have_error := by simp [haveErrAt, hps]
    have hfailInv : Inv (advanceFail now p p.ap) := by
      unfold advanceFail
      have hf : ∀ sl : Slot, (markError now sl).state = sl.state := fun _ => rfl
      have h' := h.updSlot_stateInv (i := p.ap) (f := markError now) hf
      refine inv_wait h' ?_ ?_ ?_ ?_
      · rw [updSlot_ap, updSlot_fp]; exact hap
      · rw [updSlot_fp, updSlot_length]; exact hap ▸ hlt
      · rw [updSlot_ap, haveErrAt_updSlot_self hps]
        rfl
      · rw [updSlot_ap]
        intro h0
        rw [stateAt_updSlot_stateInv hf]
        exact htop h0
    by_cases hw : ps.have_error = true ∧ now < ps.error_until
    · rw [if_pos hw]
      exact inv_wait h hap (hap ▸ hlt) (herrAt ▸ hw.1) htop
    · rw [if_neg hw]
      cases hb : buildArgs env p.statements p.ap ps.s.args 0 with
      | error e => exact hfailInv
      | ok vs =>
        by_cases hi : env.initOk = true
        · show Inv (if env.initOk = true then advanceSucceed p vs else advanceFail now p p.ap)
          rw [if_pos hi]
          exact inv_advanceSucceed vs h hap htop htimer hps
        · show Inv (if env.initOk = true then advanceSucceed p vs else advanceFail now p p.ap)
          rw [if_neg hi]
          exact hfailInv

theorem fight_inv (env : ModuleEnv) (now : Int) {p : Process}
    (h : PreInv p) (htimer : p.timer_armed = false) :
    Inv (process_fight env now p) := by
  unfold process_fight
  by_cases hap : p.ap = p.fp
  · rw [if_pos hap]
    by_cases hc : 0 < p.ap ∧ stateAt p (p.ap - 1) = SState.child
    · rw [if_neg (not_not_intro hc)]
      exact inv_still h hap htimer
    · rw [if_pos hc]
      refine advance_inv env now h hap ?_ htimer
      intro h0
      rcases h.ap_top h0 with ha | hcld
      · exact ha
      · exact absurd ⟨h0, hcld⟩ hc
  · rw [if_neg hap]
    have hlt : p.ap < p.fp := Nat.lt_of_le_of_ne h.ap_le_fp hap
    have hlen : p.fp - 1 < p.statements.length := by
      have := h.fp_le_len; omega
    obtain ⟨ps, hps⟩ := exists_slot_of_lt_length hlen
    simp only [hps]
    have hsfp : stateAt p (p.fp - 1) = ps.state := by
      simp [stateAt, stateAtL, hps]
    by_cases hd : ps.state = SState.dying
    · rw [if_neg (not_not_intro hd)]
      refine ⟨h.ap_le_fp, h.fp_le_len, h.prefix_adult, h.ap_top, h.tail_forgotten,
        h.fp_min, ?_, ?_⟩
      · intro _; rw [hsfp]; exact hd
      · rw [htimer]; intro hh; cases hh
    · rw [if_pos hd]
      set f : Slot → Slot := fun sl => { sl with state := SState.dying } with hfdef
      have hne : ∀ j, j ≠ p.fp - 1 → stateAt (updSlot p (p.fp - 1) f) j = stateAt p j :=
        fun j hj => stateAt_updSlot_ne p (p.fp - 1) f j hj
      have hself : stateAt (updSlot p (p.fp - 1) f) (p.fp - 1) = SState.dying := by
        rw [stateAt_updSlot_self hps]
      constructor
      · rw [updSlot_ap, updSlot_fp]; exact h.ap_le_fp
      · rw [updSlot_fp, updSlot_length]; exact h.fp_le_len
      · rw [updSlot_ap]
        intro i hi
        rw [hne i (by omega)]
        exact h.prefix_adult i hi
      · rw [updSlot_ap]
        intro h0
        rw [hne (p.ap - 1) (by omega)]
        exact h.ap_top h0
      · rw [updSlot_fp]
        intro i hge
        rw [hne i (by omega)]
        exact h.tail_forgotten i hge
      · rw [updSlot_fp]
        intro _
        rw [hself]
        intro hh; cases hh
      · rw [updSlot_ap, updSlot_fp]
        intro _
        exact hself
      · rw [updSlot_timer, htimer]
        intro hh; cases hh

theorem retreat_inv {p : Process} (h : PreInv p) (htimer : p.timer_armed = false) :
    ∀ p', process_retreat p = some p' → Inv p' ∧ p'.timer_armed = false := by
  unfold process_retreat
  by_cases hfp : p.fp = 0
  · rw [if_pos hfp]
    intro p' hp'
    cases hp'
  · rw [if_neg hfp]
    have hlen : p.fp - 1 < p.statements.length := by
      have := h.fp_le_len; omega
    obtain ⟨ps, hps⟩ := exists_slot_of_lt_length hlen
    simp only [hps]
    have hsfp : stateAt p (p.fp - 1) = ps.state := by
      simp [stateAt, stateAtL, hps]
    by_cases hd : ps.state = SState.dying
    · rw [if_neg (not_not_intro hd)]
      intro p' hp'
      cases hp'
      refine ⟨⟨h.ap_le_fp, h.fp_le_len, h.prefix_adult, h.ap_top, h.tail_forgotten,
        h.fp_min, ?_, ?_⟩, htimer⟩
      · intro _; rw [hsfp]; exact hd
      · rw [htimer]; intro hh; cases hh
    · rw [if_pos hd]
      intro p' hp'
      cases hp'
      set f : Slot → Slot := fun sl => { sl with state := SState.dying } with hfdef
      have hne : ∀ j, j ≠ p.fp - 1 → stateAt (updSlot p (p.fp - 1) f) j = stateAt p j :=
        fun j hj => stateAt_updSlot_ne p (p.fp - 1) f j hj
      have hself : stateAt (updSlot p (p.fp - 1) f) (p.fp - 1) = SState.dying := by
        rw [stateAt_updSlot_self hps]
      have hQt : ({ updSlot p (p.fp - 1) f with
          ap := min p.ap (p.fp - 1) } : Process).timer_armed = p.timer_armed :=
        updSlot_timer p (p.fp - 1) f
      have hQfp : ({ updSlot p (p.fp - 1) f with
          ap := min p.ap (p.fp - 1) } : Process).fp = p.fp :=
        updSlot_fp p (p.fp - 1) f
      have hQst : ∀ j, stateAt ({ updSlot p (p.fp - 1) f with
          ap := min p.ap (p.fp - 1) } : Process) j = stateAt (updSlot p (p.fp - 1) f) j :=
        fun _ => rfl
      refine ⟨⟨?_, ?_, ?_, ?_, ?_, ?_, ?_, ?_⟩, by rw [hQt]; exact htimer⟩
      · show min p.ap (p.fp - 1) ≤ ({ updSlot p (p.fp - 1) f with
          ap := min p.ap (p.fp - 1) } : Process).fp
        rw [hQfp]
        omega
      · rw [hQfp]
        show p.fp ≤ (updSlot p (p.fp - 1) f).statements.length
        rw [updSlot_length]
        exact h.fp_le_len
      · intro i hi
        rw [hQst i]
        have hia : i < p.ap - 1 := by
          simp only [show ({ updSlot p (p.fp - 1) f with
            ap := min p.ap (p.fp - 1) } : Process).ap = min p.ap (p.fp - 1) from rfl] at hi
          omega
        have hifp : i ≠ p.fp - 1 := by
          simp only [show ({ updSlot p (p.fp - 1) f with
            ap := min p.ap (p.fp - 1) } : Process).ap = min p.ap (p.fp - 1) from rfl] at hi
          omega
        rw [hne i hifp]
        exact h.prefix_adult i hia
      · intro h0
        rw [hQst]
        simp only [show ({ updSlot p (p.fp - 1) f with
          ap := min p.ap (p.fp - 1) } : Process).ap = min p.ap (p.fp - 1) from rfl] at h0 ⊢
        by_cases hle : p.ap ≤ p.fp - 1
        · rw [Nat.min_eq_left hle]
          have h0' : 0 < p.ap := by omega
          rw [hne (p.ap - 1) (by omega)]
          exact h.ap_top h0'
        · rw [Nat.min_eq_right (by omega)]
          have hap2 : p.fp ≤ p.ap := by omega
          have hapfp : p.ap = p.fp := Nat.le_antisymm h.ap_le_fp hap2
          have hfp2 : 2 ≤ p.fp := by
            rw [Nat.min_eq_right (by omega)] at h0
            omega
          rw [hne (p.fp - 1 - 1) (by omega)]
          exact Or.inl (h.prefix_adult (p.fp - 1 - 1) (by omega))
      · intro i hge
        rw [hQst i, hne i (by rw [hQfp] at hge; omega)]
        rw [hQfp] at hge
        exact h.tail_forgotten i hge
      · intro hpos
        rw [hQst, hQfp]
        rw [hQfp] at hpos
        rw [hself]
        intro hh; cases hh
      · intro _
        rw [hQst, hQfp, hself]
      · rw [hQt, htimer]
        intro hh; cases hh

theorem PreInv.disarm {p : Process} (h : PreInv p) :
    PreInv { p with timer_armed := false } :=
  ⟨h.ap_le_fp, h.fp_le_len, h.prefix_adult, h.ap_top, h.tail_forgotten, h.fp_min⟩

theorem work_inv (env : ModuleEnv) (now : Int) (t : Bool) {p : Process} (h : PreInv p) :
    ∀ p', process_work env now t p = some p' →
      Inv p' ∧ (t = true → p'.timer_armed = false) := by
  unfold process_work
  intro p' hp'
  by_cases ht : t = true
  · rw [ht] at hp' ⊢
    simp only [if_true] at hp'
    have := retreat_inv h.disarm rfl p' hp'
    exact ⟨this.1, fun _ => this.2⟩
  · have ht' : t = false := by
      cases t
      · rfl
      · exact absurd rfl ht
    rw [ht'] at hp' ⊢
    simp only [Bool.false_eq_true, if_false, Option.some.injEq] at hp'
    subst hp'
    refine ⟨fight_inv env now h.disarm rfl, ?_⟩
    intro hh; cases hh

/-! ## Event-handler preservation -/

theorem preInv_up {p : Process} (h : Inv p) {i : Nat}
    (hst : stateAt p i = SState.child) :
    PreInv (updSlot p i (fun sl => { sl with state := SState.adult })) := by
  have hlen : i < p.statements.length := by
    refine lt_length_of_stateAt_ne_forgotten ?_
    rw [hst]; intro hh; cases hh
  obtain ⟨sl, hsl⟩ := exists_slot_of_lt_length hlen
  have hifp : i < p.fp := by
    by_contra hc
    rw [h.tail_forgotten i (by omega)] at hst
    cases hst
  set f : Slot → Slot := fun sl => { sl with state := SState.adult } with hf
  have hne : ∀ j, j ≠ i → stateAt (updSlot p i f) j = stateAt p j :=
    fun j hj => stateAt_updSlot_ne p i f j hj
  have hself : stateAt (updSlot p i f) i = SState.adult := by
    rw [stateAt_updSlot_self hsl]
  constructor
  · rw [updSlot_ap, updSlot_fp]; exact h.ap_le_fp
  · rw [updSlot_fp, updSlot_length]; exact h.fp_le_len
  · rw [updSlot_ap]
    intro j hj
    by_cases hji : j = i
    · subst hji; exact hself
    · rw [hne j hji]; exact h.prefix_adult j hj
  · rw [updSlot_ap]
    intro h0
    by_cases hji : p.ap - 1 = i
    · rw [hji, hself]; exact Or.inl rfl
    · rw [hne _ hji]; exact h.ap_top h0
  · rw [updSlot_fp]
    intro j hge
    rw [hne j (by omega)]
    exact h.tail_forgotten j hge
  · rw [updSlot_fp]
    intro hpos
    by_cases hji : p.fp - 1 = i
    · rw [hji, hself]; intro hh; cases hh
    · rw [hne _ hji]; exact h.fp_min hpos

theorem preInv_down {p : Process} (h : Inv p) {i : Nat}
    (hst : stateAt p i = SState.adult) :
    PreInv { updSlot p i (fun sl => { sl with state := SState.child }) with
      ap := min (updSlot p i (fun sl => { sl with state := SState.child })).ap (i + 1) } := by
  have hlen : i < p.statements.length := by
    refine lt_length_of_stateAt_ne_forgotten ?_
    rw [hst]; intro hh; cases hh
  obtain ⟨sl, hsl⟩ := exists_slot_of_lt_length hlen
  have hifp : i < p.fp := by
    by_contra hc
    rw [h.tail_forgotten i (by omega)] at hst
    cases hst
  set f : Slot → Slot := fun sl => { sl with state := SState.child } with hf
  set q : Process := { updSlot p i f with ap := min (updSlot p i f).ap (i + 1) } with hq
  have hQap : q.ap = min p.ap (i + 1) := by
    show min (updSlot p i f).ap (i + 1) = min p.ap (i + 1)
    rw [updSlot_ap]
  have hQfp : q.fp = p.fp := updSlot_fp p i f
  have hQlen : q.statements.length = p.statements.length := updSlot_length p i f
  have hQst : ∀ j, stateAt q j = stateAt (updSlot p i f) j := fun _ => rfl
  have hne : ∀ j, j ≠ i → stateAt q j = stateAt p j := by
    intro j hj
    rw [hQst j]
    exact stateAt_updSlot_ne p i f j hj
  have hself : stateAt q i = SState.child := by
    rw [hQst i, stateAt_updSlot_self hsl]
  constructor
  · rw [hQap, hQfp]
    have := h.ap_le_fp
    omega
  · rw [hQfp, hQlen]; exact h.fp_le_len
  · rw [hQap]
    intro j hj
    rw [hne j (by omega)]
    exact h.prefix_adult j (by omega)
  · rw [hQap]
    intro h0
    by_cases hji : min p.ap (i + 1) - 1 = i
    · rw [hji, hself]; exact Or.inr rfl
    · have hmin : min p.ap (i + 1) = p.ap := by omega
      rw [hne _ hji, hmin]
      exact h.ap_top (by omega)
  · rw [hQfp]
    intro j hge
    rw [hne j (by omega)]
    exact h.tail_forgotten j hge
  · rw [hQfp]
    intro hpos
    by_cases hji : p.fp - 1 = i
    · rw [hji, hself]; intro hh; cases hh
    · rw [hne _ hji]; exact h.fp_min hpos

theorem preInv_dying {p : Process} (h : Inv p) {i : Nat}
    (hst : stateAt p i = SState.child ∨ stateAt p i = SState.adult) :
    PreInv { updSlot p i (fun sl => { sl with state := SState.dying }) with
      ap := min (updSlot p i (fun sl => { sl with state := SState.dying })).ap i } := by
  have hnf : stateAt p i ≠ SState.forgotten := by
    rcases hst with hc | ha
    · rw [hc]; intro hh; cases hh
    · rw [ha]; intro hh; cases hh
  have hlen : i < p.statements.length := lt_length_of_stateAt_ne_forgotten hnf
  obtain ⟨sl, hsl⟩ := exists_slot_of_lt_length hlen
  have hifp : i < p.fp := by
    by_contra hc
    exact hnf (h.tail_forgotten i (by omega))
  set f : Slot → Slot := fun sl => { sl with state := SState.dying } with hf
  set q : Process := { updSlot p i f with ap := min (updSlot p i f).ap i } with hq
  have hQap : q.ap = min p.ap i := by
    show min (updSlot p i f).ap i = min p.ap i
    rw [updSlot_ap]
  have hQfp : q.fp = p.fp := updSlot_fp p i f
  have hQlen : q.statements.length = p.statements.length := updSlot_length p i f
  have hQst : ∀ j, stateAt q j = stateAt (updSlot p i f) j := fun _ => rfl
  have hne : ∀ j, j ≠ i → stateAt q j = stateAt p j := by
    intro j hj
    rw [hQst j]
    exact stateAt_updSlot_ne p i f j hj
  have hself : stateAt q i = SState.dying := by
    rw [hQst i, stateAt_updSlot_self hsl]
  constructor
  · rw [hQap, hQfp]
    have := h.ap_le_fp
    omega
  · rw [hQfp, hQlen]; exact h.fp_le_len
  · rw [hQap]
    intro j hj
    rw [hne j (by omega)]
    exact h.prefix_adult j (by omega)
  · rw [hQap]
    intro h0
    have hji : min p.ap i - 1 ≠ i := by omega
    rw [hne _ hji]
    by_cases hcase : p.ap ≤ i
    · rw [Nat.min_eq_left hcase]
      exact h.ap_top (by omega)
    · rw [Nat.min_eq_right (by omega)]
      refine Or.inl (h.prefix_adult (i - 1) ?_)
      rw [Nat.min_eq_right (by omega)] at h0
      omega
  · rw [hQfp]
    intro j hge
    rw [hne j (by omega)]
    exact h.tail_forgotten j hge
  · rw [hQfp]
    intro hpos
    by_cases hji : p.fp - 1 = i
    · rw [hji, hself]; intro hh; cases hh
    · rw [hne _ hji]; exact h.fp_min hpos

theorem preInv_died (now : Int) (is_error : Bool) {p : Process} (h : Inv p) {i : Nat}
    (hst : stateAt p i ≠ SState.forgotten) :
    PreInv (diedUpdate now p i is_error) := by
  have hlen : i < p.statements.length := lt_length_of_stateAt_ne_forgotten hst
  obtain ⟨sl, hsl⟩ := exists_slot_of_lt_length hlen
  have hifp : i < p.fp := by
    by_contra hc
    exact hst (h.tail_forgotten i (by omega))
  set f : Slot → Slot := fun sl =>
    { sl with
      state := SState.forgotten,
      inst_args := none,
      have_error := is_error,
      error_until := if is_error then now + RETRY_TIME else sl.error_until } with hf
  set q : Process := diedUpdate now p i is_error with hq
  have hQap : q.ap = min p.ap i := by
    show min (updSlot p i f).ap i = min p.ap i
    rw [updSlot_ap]
  have hQfp : q.fp = recomputeFp (updSlot p i f).statements p.fp := by
    show recomputeFp (updSlot p i f).statements (updSlot p i f).fp = _
    rw [updSlot_fp]
  have hQlen : q.statements.length = p.statements.length := updSlot_length p i f
  have hQst : ∀ j, stateAt q j = stateAt (updSlot p i f) j := fun _ => rfl
  have hne : ∀ j, j ≠ i → stateAt q j = stateAt p j := by
    intro j hj
    rw [hQst j]
    exact stateAt_updSlot_ne p i f j hj
  have hself : stateAt q i = SState.forgotten := by
    rw [hQst i, stateAt_updSlot_self hsl]
  have hreg : ∀ j, q.fp ≤ j → j < p.fp → stateAt q j = SState.forgotten := by
    intro j h1 h2
    rw [hQfp] at h1
    exact recomputeFp_forgotten (updSlot p i f).statements p.fp j h1 h2
  have hRle : q.fp ≤ p.fp := by
    rw [hQfp]
    exact recomputeFp_le _ _
  constructor
  · -- AP' ≤ FP'
    rw [hQap]
    by_contra hc
    have h0m : 0 < min p.ap i := by omega
    have hm1 : q.fp ≤ min p.ap i - 1 := by omega
    have hm2 : min p.ap i - 1 < p.fp := by
      have := h.ap_le_fp; omega
    have hforg : stateAt q (min p.ap i - 1) = SState.forgotten := hreg _ hm1 hm2
    rw [hne _ (by omega)] at hforg
    by_cases hcase : p.ap ≤ i
    · rw [Nat.min_eq_left hcase] at hforg h0m
      rcases h.ap_top h0m with ha | hc2
      · rw [ha] at hforg; cases hforg
      · rw [hc2] at hforg; cases hforg
    · rw [Nat.min_eq_right (by omega)] at hforg h0m
      have := h.prefix_adult (i - 1) (by omega)
      rw [this] at hforg
      cases hforg
  · rw [hQlen]
    have := h.fp_le_len
    omega
  · rw [hQap]
    intro j hj
    rw [hne j (by omega)]
    exact h.prefix_adult j (by omega)
  · rw [hQap]
    intro h0
    have hji : min p.ap i - 1 ≠ i := by omega
    rw [hne _ hji]
    by_cases hcase : p.ap ≤ i
    · rw [Nat.min_eq_left hcase]
      exact h.ap_top (by omega)
    · rw [Nat.min_eq_right (by omega)]
      refine Or.inl (h.prefix_adult (i - 1) ?_)
      rw [Nat.min_eq_right (by omega)] at h0
      omega
  · intro j hge
    by_cases hj2 : j < p.fp
    · exact hreg j hge hj2
    · by_cases hji : j = i
      · subst hji; exact hself
      · rw [hne j hji]
        exact h.tail_forgotten j (by omega)
  · intro hpos
    rw [hQfp] at hpos ⊢
    show stateAtL (updSlot p i f).statements _ ≠ _
    exact recomputeFp_pos_ne _ _ hpos

theorem stateAt_initProcess (T : List Statement) (i : Nat) :
    stateAt (initProcess T) i = SState.forgotten := by
  simp only [stateAt, stateAtL, initProcess, List.getElem?_map]
  cases T[i]? <;> rfl

theorem preInv_init (T : List Statement) : PreInv (initProcess T) := by
  constructor
  · exact Nat.le_refl 0
  · exact Nat.zero_le _
  · intro i hi
    simp [initProcess] at hi
  · intro h0
    simp [initProcess] at h0
  · intro i _
    exact stateAt_initProcess T i
  · intro h0
    simp [initProcess] at h0

theorem winv_init (T : List Statement) (env : ModuleEnv) (now : Int) :
    WInv (initWorld T env now) := by
  constructor
  · intro q hq
    exact (work_inv env now false (preInv_init T) q hq).1
  · intro ht
    cases ht

theorem stepW_winv {w : World} {e : Ev} {w' : World} (hw : WInv w)
    (hs : stepW w e = some w') : WInv w' := by
  cases e with
  | signal env now =>
    simp only [stepW] at hs
    by_cases ht : w.terminating = true
    · rw [if_pos ht] at hs
      injection hs with h
      subst h
      exact hw
    · rw [if_neg ht] at hs
      injection hs with h
      subst h
      constructor
      · intro q hq
        simp only at hq
        cases hp : w.proc with
        | none => rw [hp] at hq; cases hq
        | some p =>
          rw [hp] at hq
          simp only [Option.some_bind] at hq
          exact (work_inv env now true (hw.proc_inv p hp).toPre q hq).1
      · intro _ q hq
        simp only at hq
        cases hp : w.proc with
        | none => rw [hp] at hq; cases hq
        | some p =>
          rw [hp] at hq
          simp only [Option.some_bind] at hq
          exact (work_inv env now true (hw.proc_inv p hp).toPre q hq).2 rfl
  | up i env now =>
    simp only [stepW] at hs
    cases hp : w.proc with
    | none => rw [hp] at hs; cases hs
    | some p =>
      simp only [hp] at hs
      by_cases hg : stateAt p i = SState.child
      · rw [if_pos hg] at hs
        injection hs with h
        subst h
        have hpre := preInv_up (hw.proc_inv p hp) hg
        constructor
        · intro q hq
          exact (work_inv env now w.terminating hpre q hq).1
        · intro hterm q hq
          exact (work_inv env now w.terminating hpre q hq).2 hterm
      · rw [if_neg hg] at hs; cases hs
  | down i env now =>
    simp only [stepW] at hs
    cases hp : w.proc with
    | none => rw [hp] at hs; cases hs
    | some p =>
      simp only [hp] at hs
      by_cases hg : stateAt p i = SState.adult
      · rw [if_pos hg] at hs
        injection hs with h
        subst h
        have hpre := preInv_down (hw.proc_inv p hp) hg
        constructor
        · intro q hq
          exact (work_inv env now w.terminating hpre q hq).1
        · intro hterm q hq
          exact (work_inv env now w.terminating hpre q hq).2 hterm
      · rw [if_neg hg] at hs; cases hs
  | dying i env now =>
    simp only [stepW] at hs
    cases hp : w.proc with
    | none => rw [hp] at hs; cases hs
    | some p =>
      simp only [hp] at hs
      by_cases hg : stateAt p i = SState.child ∨ stateAt p i = SState.adult
      · rw [if_pos hg] at hs
        injection hs with h
        subst h
        have hpre := preInv_dying (hw.proc_inv p hp) hg
        constructor
        · intro q hq
          exact (work_inv env now w.terminating hpre q hq).1
        · intro hterm q hq
          exact (work_inv env now w.terminating hpre q hq).2 hterm
      · rw [if_neg hg] at hs; cases hs
  | died i is_error env now =>
    simp only [stepW] at hs
    cases hp : w.proc with
    | none => rw [hp] at hs; cases hs
    | some p =>
      simp only [hp] at hs
      by_cases hg : stateAt p i ≠ SState.forgotten
      · rw [if_pos hg] at hs
        injection hs with h
        subst h
        have hpre := preInv_died now is_error (hw.proc_inv p hp) hg
        constructor
        · intro q hq
          exact (work_inv env now w.terminating hpre q hq).1
        · intro hterm q hq
          exact (work_inv env now w.terminating hpre q hq).2 hterm
      · rw [if_neg hg] at hs; cases hs
  | timer env now =>
    simp only [stepW] at hs
    cases hp : w.proc with
    | none => rw [hp] at hs; cases hs
    | some p =>
      simp only [hp] at hs
      by_cases hg : p.timer_armed = true
      · rw [if_pos hg] at hs
        injection hs with h
        subst h
        have hinv := hw.proc_inv p hp
        obtain ⟨hapfp, hlen, herr, htopA⟩ := hinv.timer_ok hg
        constructor
        · intro q hq
          simp only [Option.some.injEq] at hq
          subst hq
          unfold timerFire
          have hf : ∀ sl : Slot, (clearErr sl).state = sl.state := fun _ => rfl
          refine advance_inv env now
            ((hinv.toPre.disarm).updSlot_stateInv hf) ?_ ?_ ?_
          · rw [updSlot_ap, updSlot_fp]
            exact hapfp
          · rw [updSlot_ap]
            intro h0
            rw [stateAt_updSlot_stateInv hf]
            exact htopA h0
          · rw [updSlot_timer]
        · intro hterm q _
          rw [hw.term_disarm hterm p hp] at hg
          cases hg
      · rw [if_neg hg] at hs; cases hs

/-- Every reachable world satisfies the invariant. -/
theorem reachable_winv {w : World} (h : Reachable w) : WInv w := by
  induction h with
  | init T env now => exact winv_init T env now
  | step _ hs ih => exact stepW_winv ih hs

/-! ## Concrete instances used to exhibit reachable worlds -/

/-- A module oracle where everything succeeds (no variables resolvable). -/
def envOk : ModuleEnv :=
  { getVar := fun _ _ => none, copyOk := fun _ => true, appendOk := fun _ => true,
    initOk := true }

/-- A module oracle where NCDModuleInst_Init fails. -/
def envNoInit : ModuleEnv :=
  { envOk with initOk := false }

/-- One / two / three argumentless, nameless statements. -/
def T1 : List Statement := [{ name := none, args := [] }]

def T2 : List Statement := [{ name := none, args := [] }, { name := none, args := [] }]

def T3 : List Statement :=
  [{ name := none, args := [] }, { name := none, args := [] }, { name := none, args := [] }]

/-! ## Claim C1: the cursor/prefix invariant -/

/-- C1: in every reachable world (after process construction and after every
callback — each of which runs work/fight/advance/wait/retreat to completion),
AP ≤ FP ≤ num_statements, every slot at index i < AP-1 is ADULT, and slot
AP-1 (when AP > 0) is ADULT or CHILD. -/
theorem C1_cursor_invariant {w : World} {p : Process} (hr : Reachable w)
    (hp : w.proc = some p) :
    p.ap ≤ p.fp ∧ p.fp ≤ p.statements.length ∧
    (∀ i, i < p.ap - 1 → stateAt p i = SState.adult) ∧
    (0 < p.ap → stateAt p (p.ap - 1) = SState.adult ∨
      stateAt p (p.ap - 1) = SState.child) := by
  have h := (reachable_winv hr).proc_inv p hp
  exact ⟨h.ap_le_fp, h.fp_le_len, h.prefix_adult, h.ap_top⟩

theorem C1_cursor_invariant_witness :
    Reachable (initWorld T1 envOk 0) ∧
    ∀ p, (initWorld T1 envOk 0).proc = some p →
      p.ap ≤ p.fp ∧ p.fp ≤ p.statements.length ∧
      (∀ i, i < p.ap - 1 → stateAt p i = SState.adult) ∧
      (0 < p.ap → stateAt p (p.ap - 1) = SState.adult ∨
        stateAt p (p.ap - 1) = SState.child) :=
  ⟨Reachable.init T1 envOk 0,
   fun _ hp => C1_cursor_invariant (Reachable.init T1 envOk 0) hp⟩

/-! ## Claim C9: FP is the least all-FORGOTTEN point -/

/-- C9: in every reachable world, FP is exactly the least n such that every
slot at index ≥ n is FORGOTTEN; in particular when FP > 0 the slot FP-1 is
not FORGOTTEN. -/
theorem C9_fp_least {w : World} {p : Process} (hr : Reachable w)
    (hp : w.proc = some p) :
    (∀ i, p.fp ≤ i → stateAt p i = SState.forgotten) ∧
    (0 < p.fp → stateAt p (p.fp - 1) ≠ SState.forgotten) ∧
    (∀ n, (∀ i, n ≤ i → stateAt p i = SState.forgotten) → p.fp ≤ n) := by
  have h := (reachable_winv hr).proc_inv p hp
  refine ⟨h.tail_forgotten, h.fp_min, ?_⟩
  intro n hn
  by_contra hc
  exact h.fp_min (by omega) (hn (p.fp - 1) (by omega))

theorem C9_fp_least_witness :
    Reachable (initWorld T1 envOk 0) ∧
    ∀ p, (initWorld T1 envOk 0).proc = some p →
      (∀ i, p.fp ≤ i → stateAt p i = SState.forgotten) ∧
      (0 < p.fp → stateAt p (p.fp - 1) ≠ SState.forgotten) ∧
      (∀ n, (∀ i, n ≤ i → stateAt p i = SState.forgotten) → p.fp ≤ n) :=
  ⟨Reachable.init T1 envOk 0,
   fun _ hp => C9_fp_least (Reachable.init T1 envOk 0) hp⟩

/-! ## Claim C3: liveness of the region [AP, FP) -/

/-- The property claimed by C3: every slot in [AP, FP) has a live instance
(state CHILD, ADULT or DYING). -/
def regionLive (w : World) : Prop :=
  ∀ p, w.proc = some p → ∀ i, i < p.fp → p.ap ≤ i →
    stateAt p i = SState.child ∨ stateAt p i = SState.adult ∨
    stateAt p i = SState.dying

def regionLiveCheck (w : World) : Bool :=
  match w.proc with
  | none => true
  | some p =>
    decide (∀ i, i < p.fp → p.ap ≤ i →
      stateAt p i = SState.child ∨ stateAt p i = SState.adult ∨
      stateAt p i = SState.dying)

theorem regionLive_iff_check (w : World) : regionLive w ↔ regionLiveCheck w = true := by
  unfold regionLive regionLiveCheck
  cases hp : w.proc with
  | none =>
    constructor
    · intro _; rfl
    · intro _ q hq; cases hq
  | some p =>
    rw [decide_eq_true_iff]
    constructor
    · intro h; exact h p rfl
    · intro h q hq
      injection hq with hq
      subst hq
      exact h

/-- The trace refuting C3: bring three statements up, let statement 0 emit
DYING (fight then kills the tail, statement 2), then let statement 0 die
cleanly: slot 0 is FORGOTTEN while FP stays 3 (slot 2 is still DYING), so
the region [0, 3) contains a FORGOTTEN slot. -/
def evsC3 : List Ev :=
  [Ev.up 0 envOk 0, Ev.up 1 envOk 0, Ev.up 2 envOk 0,
   Ev.dying 0 envOk 1000, Ev.died 0 false envOk 2000]

theorem C3_counterexample : ∃ w, Reachable w ∧ ¬ regionLive w := by
  refine ⟨runEvsT (initWorld T3 envOk 0) evsC3,
    runEvsT_reachable evsC3 _ (Reachable.init T3 envOk 0), ?_⟩
  rw [regionLive_iff_check]
  decide

/-- C3 amended: slots inside [AP, FP) may be FORGOTTEN (a slot can die while
later slots are still being torn down), but the region is never all dead
weight: whenever AP < FP the last region slot FP-1 is DYING, so a non-empty
region always contains at least one DYING-or-CHILD slot. -/
theorem C3_amended {w : World} {p : Process} (hr : Reachable w)
    (hp : w.proc = some p) (hlt : p.ap < p.fp) :
    stateAt p (p.fp - 1) = SState.dying ∧
    ∃ i, p.ap ≤ i ∧ i < p.fp ∧
      (stateAt p i = SState.dying ∨ stateAt p i = SState.child) := by
  have h := (reachable_winv hr).proc_inv p hp
  have htail := h.region_tail hlt
  exact ⟨htail, p.fp - 1, by omega, by omega, Or.inl htail⟩

/-- Extracting a live process with AP < FP out of a computed world. -/
def apLtFpCheck (w : World) : Bool :=
  match w.proc with
  | none => false
  | some p => decide (p.ap < p.fp)

theorem apLtFp_of_check {w : World} (h : apLtFpCheck w = true) :
    ∃ p, w.proc = some p ∧ p.ap < p.fp := by
  unfold apLtFpCheck at h
  cases hp : w.proc with
  | none => rw [hp] at h; cases h
  | some p =>
    rw [hp] at h
    exact ⟨p, rfl, of_decide_eq_true h⟩

theorem C3_amended_witness :
    ∃ w, Reachable w ∧ ∃ p, w.proc = some p ∧ p.ap < p.fp ∧
      (stateAt p (p.fp - 1) = SState.dying ∧
       ∃ i, p.ap ≤ i ∧ i < p.fp ∧
        (stateAt p i = SState.dying ∨ stateAt p i = SState.child)) := by
  have hr : Reachable (runEvsT (initWorld T3 envOk 0) evsC3) :=
    runEvsT_reachable evsC3 _ (Reachable.init T3 envOk 0)
  obtain ⟨p, hp, hlt⟩ := apLtFp_of_check
    (w := runEvsT (initWorld T3 envOk 0) evsC3) (by decide)
  exact ⟨_, hr, p, hp, hlt, C3_amended hr hp hlt⟩

/-! ## Claim C4: when is the wait timer armed -/

/-- The property claimed by C4: the wait timer is armed iff AP = FP <
num_statements, slot AP has have_error, and the supervisor is not
terminating. -/
def timerIffWait (w : World) : Prop :=
  ∀ p, w.proc = some p →
    (p.timer_armed = true ↔
      (p.ap = p.fp ∧ p.fp < p.statements.length ∧ haveErrAt p p.ap = true ∧
       w.terminating = false))

def timerIffWaitCheck (w : World) : Bool :=
  match w.proc with
  | none => true
  | some p =>
    decide (p.timer_armed = true ↔
      (p.ap = p.fp ∧ p.fp < p.statements.length ∧ haveErrAt p p.ap = true ∧
       w.terminating = false))

theorem timerIffWait_iff_check (w : World) :
    timerIffWait w ↔ timerIffWaitCheck w = true := by
  unfold timerIffWait timerIffWaitCheck
  cases hp : w.proc with
  | none =>
    constructor
    · intro _; rfl
    · intro _ q hq; cases hq
  | some p =>
    rw [decide_eq_true_iff]
    constructor
    · intro h; exact h p rfl
    · intro h q hq
      injection hq with hq
      subst hq
      exact h

/-- The trace refuting the  ⟸  direction of C4: statement 1's init fails at
t=0 (error recorded, timer armed), then statement 0 goes DOWN at t=6000:
work cancels the timer and fight just waits for statement 0's UP, so the
timer is disarmed although AP = FP = 1 < 2, slot 1 still has have_error, and
the supervisor is not terminating. -/
def evsC4 : List Ev :=
  [Ev.up 0 envNoInit 0, Ev.down 0 envOk 6000]

theorem C4_counterexample : ∃ w, Reachable w ∧ ¬ timerIffWait w := by
  refine ⟨runEvsT (initWorld T2 envOk 0) evsC4,
    runEvsT_reachable evsC4 _ (Reachable.init T2 envOk 0), ?_⟩
  rw [timerIffWait_iff_check]
  decide

/-- C4 amended: only the forward direction holds.  Whenever the wait timer
is armed, AP = FP < num_statements, slot AP carries have_error, and the
supervisor is not terminating; the converse fails (the timer can be
disarmed while all those conditions hold, e.g. after a DOWN of slot AP-1). -/
theorem C4_amended {w : World} {p : Process} (hr : Reachable w)
    (hp : w.proc = some p) (ha : p.timer_armed = true) :
    p.ap = p.fp ∧ p.fp < p.statements.length ∧ haveErrAt p p.ap = true ∧
    w.terminating = false := by
  have hw := reachable_winv hr
  have h := (hw.proc_inv p hp).timer_ok ha
  refine ⟨h.1, h.2.1, h.2.2.1, ?_⟩
  cases hterm : w.terminating with
  | false => rfl
  | true =>
    rw [hw.term_disarm hterm p hp] at ha
    cases ha

/-- Extracting a live process with an armed timer out of a computed world. -/
def timerArmedCheck (w : World) : Bool :=
  match w.proc with
  | none => false
  | some p => p.timer_armed

theorem timerArmed_of_check {w : World} (h : timerArmedCheck w = true) :
    ∃ p, w.proc = some p ∧ p.timer_armed = true := by
  unfold timerArmedCheck at h
  cases hp : w.proc with
  | none => rw [hp] at h; cases h
  | some p =>
    rw [hp] at h
    exact ⟨p, rfl, h⟩


/-- Extract the process of a computed world. -/
theorem proc_extract {w : World} (h : w.proc.isSome = true) : ∃ p, w.proc = some p :=
  ⟨w.proc.get h, (Option.some_get h).symm⟩

def stepOkCheck (w : World) (e : Ev) : Bool :=
  match stepW w e with
  | some w' => w'.proc.isSome
  | none => false

theorem stepOk_extract {w : World} {e : Ev} (h : stepOkCheck w e = true) :
    ∃ w' p', stepW w e = some w' ∧ w'.proc = some p' := by
  unfold stepOkCheck at h
  cases hs : stepW w e with
  | none => rw [hs] at h; cases h
  | some w' =>
    rw [hs] at h
    exact ⟨w', w'.proc.get h, rfl, (Option.some_get h).symm⟩

/-- Witness for C4 amended: right after statement 1's init failure the timer
is armed, and the theorem yields the wait conditions there. -/
theorem C4_amended_witness :
    ∃ w, Reachable w ∧ ∃ p, w.proc = some p ∧ p.timer_armed = true ∧
      (p.ap = p.fp ∧ p.fp < p.statements.length ∧ haveErrAt p p.ap = true ∧
       w.terminating = false) := by
  have hr : Reachable (runEvsT (initWorld T2 envOk 0) [Ev.up 0 envNoInit 0]) :=
    runEvsT_reachable _ _ (Reachable.init T2 envOk 0)
  obtain ⟨p, hp, ha⟩ := timerArmed_of_check
    (w := runEvsT (initWorld T2 envOk 0) [Ev.up 0 envNoInit 0]) (by decide)
  exact ⟨_, hr, p, hp, ha, C4_amended hr hp ha⟩

/-! ## Claim C2: where have_error can be set -/

theorem haveErrAt_updSlot_haveInv {p : Process} {i : Nat} {f : Slot → Slot}
    (hf : ∀ sl, (f sl).have_error = sl.have_error) (j : Nat) :
    haveErrAt (updSlot p i f) j = haveErrAt p j := by
  by_cases hj : j = i
  · subst hj
    simp only [haveErrAt, get?_updSlot, if_pos rfl]
    cases p.statements[j]? with
    | none => rfl
    | some sl => simp [hf]
  · simp [haveErrAt, get?_updSlot, hj]

theorem stateAt_wait (p : Process) (j : Nat) : stateAt (process_wait p) j = stateAt p j := rfl

theorem haveErrAt_wait (p : Process) (j : Nat) :
    haveErrAt (process_wait p) j = haveErrAt p j := rfl

theorem advance_slots_ne (env : ModuleEnv) (now : Int) (p : Process) {j : Nat}
    (hj : j ≠ p.ap) :
    (process_advance env now p).statements[j]? = p.statements[j]? := by
  unfold process_advance
  by_cases hv : p.ap = p.statements.length
  · rw [if_pos hv]
  · rw [if_neg hv]
    cases hps : p.statements[p.ap]? with
    | none => rfl
    | some ps =>
      show (advanceWithSlot env now p ps).statements[j]? = _
      unfold advanceWithSlot
      by_cases hw : ps.have_error = true ∧ now < ps.error_until
      · rw [if_pos hw]; rfl
      · rw [if_neg hw]
        cases hb : buildArgs env p.statements p.ap ps.s.args 0 with
        | error e =>
          show (advanceFail now p p.ap).statements[j]? = _
          unfold advanceFail
          show (updSlot p p.ap (markError now)).statements[j]? = _
          rw [get?_updSlot]
          simp [hj]
        | ok vs =>
          by_cases hi : env.initOk = true
          · show (if env.initOk = true then advanceSucceed p vs
              else advanceFail now p p.ap).statements[j]? = _
            rw [if_pos hi]
            show (updSlot p p.ap fun sl =>
              { sl with state := SState.child, inst_args := some vs }).statements[j]? = _
            rw [get?_updSlot]
            simp [hj]
          · show (if env.initOk = true then advanceSucceed p vs
              else advanceFail now p p.ap).statements[j]? = _
            rw [if_neg hi]
            show (updSlot p p.ap (markError now)).statements[j]? = _
            rw [get?_updSlot]
            simp [hj]

theorem advance_of_err_wait (env : ModuleEnv) (now : Int) (p : Process)
    (herr : haveErrAt p p.ap = true) (hu : now < errUntilAt p p.ap) :
    process_advance env now p = p ∨ process_advance env now p = process_wait p := by
  unfold process_advance
  by_cases hv : p.ap = p.statements.length
  · rw [if_pos hv]; exact Or.inl rfl
  · rw [if_neg hv]
    cases hps : p.statements[p.ap]? with
    | none => exact Or.inl rfl
    | some ps =>
      have h1 : ps.have_error = true := by
        simpa [haveErrAt, hps] using herr
      have h2 : now < ps.error_until := by
        simpa [errUntilAt, hps] using hu
      refine Or.inr ?_
      show advanceWithSlot env now p ps = process_wait p
      unfold advanceWithSlot
      rw [if_pos ⟨h1, h2⟩]

theorem advance_errSafe (env : ModuleEnv) (now : Int) {p : Process}
    (hforg : stateAt p p.ap = SState.forgotten) :
    ∀ i, haveErrAt p i = false → haveErrAt (process_advance env now p) i = true →
      stateAt (process_advance env now p) i = SState.forgotten := by
  intro i hold hnew
  by_cases hj : i = p.ap
  case neg =>
    have := advance_slots_ne env now p hj
    rw [show haveErrAt (process_advance env now p) i =
      haveErrAt p i by simp [haveErrAt, this], hold] at hnew
    cases hnew
  case pos =>
    subst hj
    revert hnew
    unfold process_advance
    by_cases hv : p.ap = p.statements.length
    · rw [if_pos hv]
      intro hnew
      rw [hold] at hnew
      cases hnew
    · rw [if_neg hv]
      cases hps : p.statements[p.ap]? with
      | none =>
        intro hnew
        rw [hold] at hnew
        cases hnew
      | some ps =>
        show haveErrAt (advanceWithSlot env now p ps) p.ap = true →
          stateAt (advanceWithSlot env now p ps) p.ap = SState.forgotten
        unfold advanceWithSlot
        by_cases hw : ps.have_error = true ∧ now < ps.error_until
        · rw [if_pos hw]
          intro hnew
          rw [haveErrAt_wait, hold] at hnew
          cases hnew
        · rw [if_neg hw]
          have hfail : stateAt (advanceFail now p p.ap) p.ap = SState.forgotten := by
            unfold advanceFail
            rw [stateAt_wait,
              stateAt_updSlot_stateInv (f := markError now) (fun _ => rfl)]
            exact hforg
          cases hb : buildArgs env p.statements p.ap ps.s.args 0 with
          | error e => intro _; exact hfail
          | ok vs =>
            by_cases hi : env.initOk = true
            · show haveErrAt (if env.initOk = true then advanceSucceed p vs
                else advanceFail now p p.ap) p.ap = true →
                stateAt (if env.initOk = true then advanceSucceed p vs
                else advanceFail now p p.ap) p.ap = SState.forgotten
              rw [if_pos hi]
              intro hnew
              have hsame : haveErrAt (advanceSucceed p vs) p.ap = haveErrAt p p.ap :=
                haveErrAt_updSlot_haveInv (p := p) (i := p.ap)
                  (f := fun sl => { sl with state := SState.child, inst_args := some vs })
                  (fun _ => rfl) p.ap
              rw [hsame, hold] at hnew
              cases hnew
            · show haveErrAt (if env.initOk = true then advanceSucceed p vs
                else advanceFail now p p.ap) p.ap = true →
                stateAt (if env.initOk = true then advanceSucceed p vs
                else advanceFail now p p.ap) p.ap = SState.forgotten
              rw [if_neg hi]
              intro _
              exact hfail

theorem fight_errSafe (env : ModuleEnv) (now : Int) {p : Process} (h : PreInv p) :
    ∀ i, haveErrAt p i = false → haveErrAt (process_fight env now p) i = true →
      stateAt (process_fight env now p) i = SState.forgotten := by
  intro i hold hnew
  unfold process_fight at hnew ⊢
  by_cases hap : p.ap = p.fp
  · rw [if_pos hap] at hnew ⊢
    by_cases hc : 0 < p.ap ∧ stateAt p (p.ap - 1) = SState.child
    · rw [if_neg (not_not_intro hc)] at hnew ⊢
      rw [hold] at hnew
      cases hnew
    · rw [if_pos hc] at hnew ⊢
      exact advance_errSafe env now (h.tail_forgotten p.ap (by omega)) i hold hnew
  · rw [if_neg hap] at hnew ⊢
    have hlen : p.fp - 1 < p.statements.length := by
      have h1 := h.fp_le_len
      have h2 := h.ap_le_fp
      omega
    obtain ⟨ps, hps⟩ := exists_slot_of_lt_length hlen
    simp only [hps] at hnew ⊢
    by_cases hd : ps.state ≠ SState.dying
    · rw [if_pos hd] at hnew ⊢
      rw [haveErrAt_updSlot_haveInv (p := p) (i := p.fp - 1)
        (f := fun sl => { sl with state := SState.dying }) (fun _ => rfl) i,
        hold] at hnew
      cases hnew
    · rw [if_neg hd] at hnew ⊢
      rw [hold] at hnew
      cases hnew

theorem retreat_haveErr {p : Process} (h : PreInv p) :
    ∀ p', process_retreat p = some p' → ∀ i, haveErrAt p' i = haveErrAt p i := by
  unfold process_retreat
  by_cases hfp : p.fp = 0
  · rw [if_pos hfp]
    intro p' hp'
    cases hp'
  · rw [if_neg hfp]
    have hlen : p.fp - 1 < p.statements.length := by
      have := h.fp_le_len
      omega
    obtain ⟨ps, hps⟩ := exists_slot_of_lt_length hlen
    simp only [hps]
    by_cases hd : ps.state ≠ SState.dying
    · rw [if_pos hd]
      intro p' hp' i
      injection hp' with hp'
      subst hp'
      exact haveErrAt_updSlot_haveInv (p := p) (i := p.fp - 1)
        (f := fun sl => { sl with state := SState.dying }) (fun _ => rfl) i
    · rw [if_neg hd]
      intro p' hp' i
      injection hp' with hp'
      subst hp'
      rfl

theorem work_errSafe (env : ModuleEnv) (now : Int) (t : Bool) {p : Process} (h : PreInv p) :
    ∀ q, process_work env now t p = some q →
      ∀ i, haveErrAt p i = false → haveErrAt q i = true →
        stateAt q i = SState.forgotten := by
  unfold process_work
  intro q hq i hold hnew
  by_cases ht : t = true
  · rw [ht] at hq
    simp only [if_true] at hq
    rw [retreat_haveErr h.disarm q hq i] at hnew
    rw [show haveErrAt { p with timer_armed := false } i = haveErrAt p i from rfl,
      hold] at hnew
    cases hnew
  · have ht' : t = false := by
      cases t
      · rfl
      · exact absurd rfl ht
    rw [ht'] at hq
    simp only [Bool.false_eq_true, if_false, Option.some.injEq] at hq
    subst hq
    exact fight_errSafe env now h.disarm i hold hnew

theorem advance_preserves_forgotten (env : ModuleEnv) (now : Int) {p : Process} {j : Nat}
    (hj : stateAt p j = SState.forgotten) (herrj : haveErrAt p j = true)
    (hu : now < errUntilAt p j) :
    stateAt (process_advance env now p) j = SState.forgotten := by
  by_cases hja : j = p.ap
  · subst hja
    rcases advance_of_err_wait env now p herrj hu with he | he
    · rw [he]; exact hj
    · rw [he, stateAt_wait]; exact hj
  · rw [show stateAt (process_advance env now p) j =
      stateAt p j by simp [stateAt, stateAtL, advance_slots_ne env now p hja]]
    exact hj

theorem fight_preserves_forgotten (env : ModuleEnv) (now : Int) {p : Process}
    (h : PreInv p) {j : Nat} (hj : stateAt p j = SState.forgotten)
    (herrj : haveErrAt p j = true) (hu : now < errUntilAt p j) :
    stateAt (process_fight env now p) j = SState.forgotten := by
  unfold process_fight
  by_cases hap : p.ap = p.fp
  · rw [if_pos hap]
    by_cases hc : 0 < p.ap ∧ stateAt p (p.ap - 1) = SState.child
    · rw [if_neg (not_not_intro hc)]
      exact hj
    · rw [if_pos hc]
      exact advance_preserves_forgotten env now hj herrj hu
  · rw [if_neg hap]
    have hlen : p.fp - 1 < p.statements.length := by
      have h1 := h.fp_le_len
      have h2 := h.ap_le_fp
      omega
    obtain ⟨ps, hps⟩ := exists_slot_of_lt_length hlen
    simp only [hps]
    have hjfp : j ≠ p.fp - 1 := by
      intro he
      subst he
      exact h.fp_min (by have := h.ap_le_fp; omega) hj
    by_cases hd : ps.state ≠ SState.dying
    · rw [if_pos hd]
      rw [stateAt_updSlot_ne p (p.fp - 1) _ j hjfp]
      exact hj
    · rw [if_neg hd]
      exact hj

theorem retreat_preserves_forgotten {p : Process} (h : PreInv p) {j : Nat}
    (hj : stateAt p j = SState.forgotten) :
    ∀ p', process_retreat p = some p' → stateAt p' j = SState.forgotten := by
  unfold process_retreat
  by_cases hfp : p.fp = 0
  · rw [if_pos hfp]
    intro p' hp'
    cases hp'
  · rw [if_neg hfp]
    have hlen : p.fp - 1 < p.statements.length := by
      have := h.fp_le_len
      omega
    obtain ⟨ps, hps⟩ := exists_slot_of_lt_length hlen
    simp only [hps]
    have hjfp : j ≠ p.fp - 1 := by
      intro he
      subst he
      exact h.fp_min (by omega) hj
    by_cases hd : ps.state ≠ SState.dying
    · rw [if_pos hd]
      intro p' hp'
      injection hp' with hp'
      subst hp'
      show stateAt (updSlot p (p.fp - 1) _) j = SState.forgotten
      rw [stateAt_updSlot_ne p (p.fp - 1) _ j hjfp]
      exact hj
    · rw [if_neg hd]
      intro p' hp'
      injection hp' with hp'
      subst hp'
      exact hj

theorem work_preserves_forgotten (env : ModuleEnv) (now : Int) (t : Bool) {p : Process}
    (h : PreInv p) {j : Nat} (hj : stateAt p j = SState.forgotten)
    (herrj : haveErrAt p j = true) (hu : now < errUntilAt p j) :
    ∀ q, process_work env now t p = some q → stateAt q j = SState.forgotten := by
  unfold process_work
  intro q hq
  by_cases ht : t = true
  · rw [ht] at hq
    simp only [if_true] at hq
    exact retreat_preserves_forgotten h.disarm hj q hq
  · have ht' : t = false := by
      cases t
      · rfl
      · exact absurd rfl ht
    rw [ht'] at hq
    simp only [Bool.false_eq_true, if_false, Option.some.injEq] at hq
    subst hq
    exact fight_preserves_forgotten env now h.disarm hj herrj hu

theorem errUntilAt_updSlot_self {p : Process} {i : Nat} {sl : Slot}
    (h : p.statements[i]? = some sl) (f : Slot → Slot) :
    errUntilAt (updSlot p i f) i = (f sl).error_until := by
  simp [errUntilAt, get?_updSlot, h]

/-- The property claimed by C2: have_error only on FORGOTTEN slots. -/
def errOnlyForgotten (w : World) : Prop :=
  ∀ p, w.proc = some p → ∀ i, i < p.statements.length →
    haveErrAt p i = true → stateAt p i = SState.forgotten

def errOnlyForgottenCheck (w : World) : Bool :=
  match w.proc with
  | none => true
  | some p =>
    decide (∀ i, i < p.statements.length →
      haveErrAt p i = true → stateAt p i = SState.forgotten)

theorem errOnlyForgotten_iff_check (w : World) :
    errOnlyForgotten w ↔ errOnlyForgottenCheck w = true := by
  unfold errOnlyForgotten errOnlyForgottenCheck
  cases hp : w.proc with
  | none =>
    constructor
    · intro _; rfl
    · intro _ q hq; cases hq
  | some p =>
    rw [decide_eq_true_iff]
    constructor
    · intro h; exact h p rfl
    · intro h q hq
      injection hq with hq
      subst hq
      exact h

/-- The trace refuting C2: statement 1's init fails at t=0 (have_error set,
deadline 5000, timer armed); statement 0 goes DOWN at t=6000 (timer
cancelled, fight waits for UP); statement 0 comes back UP at t=7000 and
advance re-runs statement 1 — the deadline has passed, so advance proceeds
and succeeds WITHOUT clearing have_error: slot 1 is CHILD with
have_error still set. -/
def evsC2 : List Ev :=
  [Ev.up 0 envNoInit 0, Ev.down 0 envOk 6000, Ev.up 0 envOk 7000]

theorem C2_counterexample : ∃ w, Reachable w ∧ ¬ errOnlyForgotten w := by
  refine ⟨runEvsT (initWorld T2 envOk 0) evsC2,
    runEvsT_reachable evsC2 _ (Reachable.init T2 envOk 0), ?_⟩
  rw [errOnlyForgotten_iff_check]
  decide

/-- C2 amended: have_error is only ever ESTABLISHED on FORGOTTEN slots —
after any observable step, a slot whose have_error was newly set is
FORGOTTEN — but a successful advance does not clear a stale have_error, so
a live (CHILD/ADULT/DYING) slot may still carry have_error and the state
invariant claimed by C2 does not hold. -/
theorem C2_amended {w : World} {e : Ev} {w' : World} {p p' : Process}
    (hr : Reachable w) (hs : stepW w e = some w')
    (hp : w.proc = some p) (hp' : w'.proc = some p') :
    ∀ i, haveErrAt p i = false → haveErrAt p' i = true →
      stateAt p' i = SState.forgotten := by
  intro i hold hnew
  have hw := reachable_winv hr
  have hinv := hw.proc_inv p hp
  cases e with
  | signal env now =>
    simp only [stepW] at hs
    by_cases ht : w.terminating = true
    · rw [if_pos ht] at hs
      injection hs with h
      subst h
      rw [hp] at hp'
      injection hp' with hp'
      subst hp'
      rw [hold] at hnew
      cases hnew
    · rw [if_neg ht] at hs
      injection hs with h
      subst h
      simp only at hp'
      rw [hp] at hp'
      simp only [Option.some_bind] at hp'
      exact work_errSafe env now true hinv.toPre p' hp' i hold hnew
  | up j env now =>
    simp only [stepW, hp] at hs
    by_cases hg : stateAt p j = SState.child
    · rw [if_pos hg] at hs
      injection hs with h
      subst h
      have hpre := preInv_up hinv hg
      have hold2 : haveErrAt (updSlot p j (fun sl => { sl with state := SState.adult })) i
          = haveErrAt p i :=
        haveErrAt_updSlot_haveInv (p := p) (i := j)
          (f := fun sl => { sl with state := SState.adult }) (fun _ => rfl) i
      exact work_errSafe env now w.terminating hpre p' hp' i
        (by rw [hold2]; exact hold) hnew
    · rw [if_neg hg] at hs
      cases hs
  | down j env now =>
    simp only [stepW, hp] at hs
    by_cases hg : stateAt p j = SState.adult
    · rw [if_pos hg] at hs
      injection hs with h
      subst h
      have hpre := preInv_down hinv hg
      have hold2 : haveErrAt (updSlot p j (fun sl => { sl with state := SState.child })) i
          = haveErrAt p i :=
        haveErrAt_updSlot_haveInv (p := p) (i := j)
          (f := fun sl => { sl with state := SState.child }) (fun _ => rfl) i
      exact work_errSafe env now w.terminating hpre p' hp' i
        (by rw [show haveErrAt { updSlot p j (fun sl => { sl with state := SState.child }) with
            ap := min (updSlot p j (fun sl => { sl with state := SState.child })).ap (j + 1) } i
          = haveErrAt (updSlot p j (fun sl => { sl with state := SState.child })) i from rfl,
          hold2]; exact hold) hnew
    · rw [if_neg hg] at hs
      cases hs
  | dying j env now =>
    simp only [stepW, hp] at hs
    by_cases hg : stateAt p j = SState.child ∨ stateAt p j = SState.adult
    · rw [if_pos hg] at hs
      injection hs with h
      subst h
      have hpre := preInv_dying hinv hg
      have hold2 : haveErrAt (updSlot p j (fun sl => { sl with state := SState.dying })) i
          = haveErrAt p i :=
        haveErrAt_updSlot_haveInv (p := p) (i := j)
          (f := fun sl => { sl with state := SState.dying }) (fun _ => rfl) i
      exact work_errSafe env now w.terminating hpre p' hp' i
        (by rw [show haveErrAt { updSlot p j (fun sl => { sl with state := SState.dying }) with
            ap := min (updSlot p j (fun sl => { sl with state := SState.dying })).ap j } i
          = haveErrAt (updSlot p j (fun sl => { sl with state := SState.dying })) i from rfl,
          hold2]; exact hold) hnew
    · rw [if_neg hg] at hs
      cases hs
  | died j is_error env now =>
    simp only [stepW, hp] at hs
    by_cases hg : stateAt p j ≠ SState.forgotten
    · rw [if_pos hg] at hs
      injection hs with h
      subst h
      have hpre := preInv_died now is_error hinv hg
      have hlenj : j < p.statements.length := lt_length_of_stateAt_ne_forgotten hg
      obtain ⟨sl, hsl⟩ := exists_slot_of_lt_length hlenj
      by_cases hij : i = j
      · subst hij
        cases is_error with
        | false =>
          have hold3 : haveErrAt (diedUpdate now p i false) i = false := by
            show haveErrAt (updSlot p i _) i = false
            rw [haveErrAt_updSlot_self hsl]
          exact work_errSafe env now w.terminating hpre p' hp' i hold3 hnew
        | true =>
          have hj3 : stateAt (diedUpdate now p i true) i = SState.forgotten := by
            show stateAt (updSlot p i _) i = SState.forgotten
            rw [stateAt_updSlot_self hsl]
          have herr3 : haveErrAt (diedUpdate now p i true) i = true := by
            show haveErrAt (updSlot p i _) i = true
            rw [haveErrAt_updSlot_self hsl]
          have hu3 : now < errUntilAt (diedUpdate now p i true) i := by
            show now < errUntilAt (updSlot p i _) i
            rw [errUntilAt_updSlot_self hsl]
            show now < (if true = true then now + RETRY_TIME else sl.error_until)
            rw [if_pos rfl]
            have : (0 : Int) < RETRY_TIME := by norm_num [RETRY_TIME]
            omega
          exact work_preserves_forgotten env now w.terminating hpre hj3 herr3 hu3 p' hp'
      · have hold3 : haveErrAt (diedUpdate now p j is_error) i = haveErrAt p i := by
          show haveErrAt (updSlot p j _) i = haveErrAt p i
          exact haveErrAt_updSlot_ne p j _ i hij
        exact work_errSafe env now w.terminating hpre p' hp' i
          (by rw [hold3]; exact hold) hnew
    · rw [if_neg hg] at hs
      cases hs
  | timer env now =>
    simp only [stepW, hp] at hs
    by_cases hg : p.timer_armed = true
    · rw [if_pos hg] at hs
      injection hs with h
      subst h
      simp only [Option.some.injEq] at hp'
      subst hp'
      obtain ⟨hapfp, hlen, herrA, htopA⟩ := hinv.timer_ok hg
      have haplen : p.ap < p.statements.length := by omega
      obtain ⟨sl, hsl⟩ := exists_slot_of_lt_length haplen
      unfold timerFire
      have hforg2 : stateAt (updSlot { p with timer_armed := false } p.ap clearErr)
          ((updSlot { p with timer_armed := false } p.ap clearErr).ap)
          = SState.forgotten := by
        rw [updSlot_ap]
        rw [stateAt_updSlot_stateInv (f := clearErr) (fun _ => rfl)]
        exact hinv.tail_forgotten p.ap (by omega)
      have hold2 : haveErrAt (updSlot { p with timer_armed := false } p.ap clearErr) i
          = false := by
        by_cases hia : i = p.ap
        · subst hia
          rw [haveErrAt_updSlot_self (p := { p with timer_armed := false }) hsl]
          rfl
        · rw [haveErrAt_updSlot_ne _ _ _ _ hia]
          exact hold
      exact advance_errSafe env now hforg2 i hold2 hnew
    · rw [if_neg hg] at hs
      cases hs

/-- Witness for C2 amended: a single statement whose instance dies with
is_error: the step sets have_error and the slot is indeed FORGOTTEN. -/
theorem C2_amended_witness :
    ∃ w w' p p', Reachable w ∧ stepW w (Ev.died 0 true envOk 5) = some w' ∧
      w.proc = some p ∧ w'.proc = some p' ∧
      (∀ i, haveErrAt p i = false → haveErrAt p' i = true →
        stateAt p' i = SState.forgotten) := by
  have hr : Reachable (initWorld T1 envOk 0) := Reachable.init T1 envOk 0
  obtain ⟨w', p', hs, hp'⟩ := stepOk_extract
    (w := initWorld T1 envOk 0) (e := Ev.died 0 true envOk 5) (by decide)
  obtain ⟨p, hp⟩ := proc_extract (w := initWorld T1 envOk 0) (by decide)
  exact ⟨_, w', p, p', hr, hs, hp, hp', C2_amended hr hs hp hp'⟩

/-! ## Claim C5: variable resolution during advance -/

/-- Spec-side resolution, written from the spec's words for the refinement
against findRefStmt: "scan slots AP-1, AP-2, …, 0 (reverse order); pick the
first slot whose template.name == modname". -/
def resolveSpec (st : List Slot) (ap : Nat) (modname : String) : Option Nat :=
  (List.range ap).reverse.find? (fun j => decide (nameAtL st j = some modname))

/-- Spec-side materialization of one argument, written from the spec's words
(§4.4 advance step 4): a literal is deep-copied; a VariableRef resolves
through the reverse scan and the found slot's GetVar is called with varname
or the empty string; missing name gives UnresolvedName, a declined GetVar
gives UnresolvedVariable. -/
def materializeArg (env : ModuleEnv) (st : List Slot) (ap : Nat) (k : Nat) :
    ArgElem → Except AdvanceError Value
  | .var modname varname =>
    match resolveSpec st ap modname with
    | none => .error (.unknownName modname)
    | some j =>
      match env.getVar j (varname.getD "") with
      | none => .error (.unresolvedVar modname (varname.getD ""))
      | some v => .ok v
  | .val v => if env.copyOk k then .ok v else .error .copyFail

/-- Spec-side materialization of the whole argument list in order, written
from the spec's words (§4.4 advance step 4); appending each resolved Value
(append may fail by allocation). -/
def buildArgsSpec (env : ModuleEnv) (st : List Slot) (ap : Nat) :
    List ArgElem → Nat → Except AdvanceError (List Value)
  | [], _ => .ok []
  | a :: rest, k =>
    match materializeArg env st ap k a with
    | .error e => .error e
    | .ok v =>
      if env.appendOk k then
        (buildArgsSpec env st ap rest (k + 1)).map (fun vs => v :: vs)
      else .error .appendFail

theorem findRefStmt_eq_resolveSpec (st : List Slot) (ap : Nat) (m : String) :
    findRefStmt st ap m = resolveSpec st ap m := by
  induction ap with
  | zero => rfl
  | succ j ih =>
    unfold findRefStmt
    rw [ih]
    unfold resolveSpec
    rw [List.range_succ, List.reverse_append, List.reverse_singleton,
      List.singleton_append, List.find?_cons]
    by_cases hm : nameAtL st j = some m
    · rw [if_pos hm]
      simp [hm]
    · rw [if_neg hm]
      simp [hm]

theorem findRefStmt_some_iff (st : List Slot) (ap : Nat) (m : String) (j : Nat) :
    findRefStmt st ap m = some j ↔
      (j < ap ∧ nameAtL st j = some m ∧
       ∀ l, j < l → l < ap → nameAtL st l ≠ some m) := by
  induction ap with
  | zero =>
    constructor
    · intro h; cases h
    · intro ⟨h1, _, _⟩; omega
  | succ k ih =>
    unfold findRefStmt
    by_cases hm : nameAtL st k = some m
    · rw [if_pos hm]
      constructor
      · intro h
        injection h with h
        subst h
        exact ⟨by omega, hm, fun l h1 h2 => by omega⟩
      · intro ⟨h1, h2, h3⟩
        by_cases hjk : j = k
        · rw [hjk]
        · exact absurd hm (h3 k (by omega) (by omega))
    · rw [if_neg hm]
      rw [ih]
      constructor
      · intro ⟨h1, h2, h3⟩
        refine ⟨by omega, h2, ?_⟩
        intro l hl1 hl2
        by_cases hlk : l = k
        · rw [hlk]; exact hm
        · exact h3 l hl1 (by omega)
      · intro ⟨h1, h2, h3⟩
        have hjk : j ≠ k := by
          intro he
          rw [he] at h2
          exact hm h2
        exact ⟨by omega, h2, fun l hl1 hl2 => h3 l hl1 (by omega)⟩

theorem buildArgs_eq_spec (env : ModuleEnv) (st : List Slot) (ap : Nat)
    (args : List ArgElem) (k : Nat) :
    buildArgs env st ap args k = buildArgsSpec env st ap args k := by
  induction args generalizing k with
  | nil => rfl
  | cons a rest ih =>
    cases a with
    | var m vn =>
      simp only [buildArgs, buildArgsSpec, materializeArg, findRefStmt_eq_resolveSpec]
      cases hrs : resolveSpec st ap m with
      | none => rfl
      | some j =>
        simp only
        cases hgv : env.getVar j (vn.getD "") with
        | none => rfl
        | some v =>
          by_cases ha : env.appendOk k = true
          · simp only [if_pos ha, ih]
          · simp only [if_neg ha]
    | val v =>
      simp only [buildArgs, buildArgsSpec, materializeArg]
      by_cases hc : env.copyOk k = true
      · simp only [if_pos hc]
        by_cases ha : env.appendOk k = true
        · simp only [if_pos ha, ih]
        · simp only [if_neg ha]
      · simp only [if_neg hc]

/-- C5: the argument materialization of process_advance refines the spec's
description: (1) the code's build loop equals the spec-side one, whose
variable case resolves through the reverse scan, calls GetVar with varname
or the empty string, and maps a missing name to UnresolvedName and a
declined GetVar to UnresolvedVariable; (2) the scan picks exactly the
nearest earlier slot whose exported name matches (under duplicates); (3) at
any advance moment (prefix ADULT up to AP-1), the slot the scan picks is
ADULT. -/
theorem C5_variable_resolution :
    (∀ env st ap args k, buildArgs env st ap args k = buildArgsSpec env st ap args k) ∧
    (∀ st ap m j, findRefStmt st ap m = some j ↔
      (j < ap ∧ nameAtL st j = some m ∧
       ∀ l, j < l → l < ap → nameAtL st l ≠ some m)) ∧
    (∀ (p : Process) (m : String) (j : Nat),
      (∀ i, i < p.ap - 1 → stateAt p i = SState.adult) →
      (0 < p.ap → stateAt p (p.ap - 1) = SState.adult) →
      findRefStmt p.statements p.ap m = some j → stateAt p j = SState.adult) := by
  refine ⟨buildArgs_eq_spec, findRefStmt_some_iff, ?_⟩
  intro p m j hpre htop hf
  have hj := (findRefStmt_some_iff p.statements p.ap m j).1 hf
  by_cases hje : j = p.ap - 1
  · rw [hje]
    exact htop (by omega)
  · exact hpre j (by omega)

/-- An ADULT slot exporting the name "a". -/
def slotAdultA : Slot :=
  { s := { name := some "a", args := [] },
    state := SState.adult,
    have_error := false,
    error_until := 0,
    inst_args := some [] }

/-- Witness process for C5: one ADULT slot exporting name "a", AP = 1. -/
def PW5 : Process :=
  { statements := [slotAdultA], ap := 1, fp := 1, timer_armed := false }

theorem C5_variable_resolution_witness :
    ((∀ i, i < PW5.ap - 1 → stateAt PW5 i = SState.adult) ∧
     (0 < PW5.ap → stateAt PW5 (PW5.ap - 1) = SState.adult) ∧
     findRefStmt PW5.statements PW5.ap "a" = some 0) ∧
    stateAt PW5 0 = SState.adult :=
  ⟨⟨by decide, by decide, by decide⟩,
   C5_variable_resolution.2.2 PW5 "a" 0 (by decide) (by decide) (by decide)⟩

/-! ## Claim C6: the advance failure path -/

theorem instArgsAt_updSlot_self {p : Process} {i : Nat} {sl : Slot}
    (h : p.statements[i]? = some sl) (f : Slot → Slot) :
    instArgsAt (updSlot p i f) i = (f sl).inst_args := by
  simp [instArgsAt, get?_updSlot, h]

/-- C6: when argument materialization or instance init fails, advance
destroys the partial instance_args, marks the slot with have_error and
error_until = now + RETRY_TIME, enters wait (arming the retry timer), and
leaves everything else unchanged: the slot remains FORGOTTEN (its state is
untouched) and AP, FP, and all other slots keep their prior values. -/
theorem C6_failure_handling (env : ModuleEnv) (now : Int) {p : Process}
    {e : AdvanceError}
    (hlen : p.ap < p.statements.length)
    (hforg : stateAt p p.ap = SState.forgotten)
    (hnw : ¬ (haveErrAt p p.ap = true ∧ now < errUntilAt p p.ap))
    (hfail : buildArgs env p.statements p.ap (argsAt p p.ap) 0 = Except.error e ∨
      env.initOk = false) :
    (process_advance env now p).ap = p.ap ∧
    (process_advance env now p).fp = p.fp ∧
    (process_advance env now p).timer_armed = true ∧
    stateAt (process_advance env now p) p.ap = SState.forgotten ∧
    haveErrAt (process_advance env now p) p.ap = true ∧
    errUntilAt (process_advance env now p) p.ap = now + RETRY_TIME ∧
    instArgsAt (process_advance env now p) p.ap = none ∧
    ∀ j, j ≠ p.ap → (process_advance env now p).statements[j]? = p.statements[j]? := by
  obtain ⟨ps, hps⟩ := exists_slot_of_lt_length hlen
  have hargs : argsAt p p.ap = ps.s.args := by simp [argsAt, hps]
  have hcond : ¬ (ps.have_error = true ∧ now < ps.error_until) := by
    intro ⟨h1, h2⟩
    exact hnw ⟨by simp [haveErrAt, hps, h1], by simpa [errUntilAt, hps] using h2⟩
  have heq : process_advance env now p = advanceFail now p p.ap := by
    unfold process_advance
    rw [if_neg (by omega)]
    simp only [hps]
    unfold advanceWithSlot
    rw [if_neg hcond]
    rcases hfail with hb | hi
    · rw [hargs] at hb
      rw [hb]
    · cases hb : buildArgs env p.statements p.ap ps.s.args 0 with
      | error e => rfl
      | ok vs =>
        show (if env.initOk = true then advanceSucceed p vs
          else advanceFail now p p.ap) = advanceFail now p p.ap
        rw [hi]
        simp
  rw [heq]
  unfold advanceFail
  refine ⟨updSlot_ap p p.ap (markError now), updSlot_fp p p.ap (markError now), rfl,
    ?_, ?_, ?_, ?_, ?_⟩
  · rw [stateAt_wait, stateAt_updSlot_stateInv (f := markError now) (fun _ => rfl)]
    exact hforg
  · rw [haveErrAt_wait, haveErrAt_updSlot_self hps]
    rfl
  · show errUntilAt (updSlot p p.ap (markError now)) p.ap = now + RETRY_TIME
    rw [errUntilAt_updSlot_self hps]
    rfl
  · show instArgsAt (updSlot p p.ap (markError now)) p.ap = none
    rw [instArgsAt_updSlot_self hps]
    rfl
  · intro j hj
    show (updSlot p p.ap (markError now)).statements[j]? = p.statements[j]?
    rw [get?_updSlot]
    simp [hj]

/-- A fresh FORGOTTEN slot with no arguments. -/
def slotForgotten : Slot :=
  { s := { name := none, args := [] },
    state := SState.forgotten,
    have_error := false,
    error_until := 0,
    inst_args := none }

/-- Witness process for C6: one FORGOTTEN slot, AP = FP = 0, no error. -/
def PW6 : Process :=
  { statements := [slotForgotten], ap := 0, fp := 0, timer_armed := false }

theorem C6_failure_handling_witness :
    (PW6.ap < PW6.statements.length ∧
     stateAt PW6 PW6.ap = SState.forgotten ∧
     ¬ (haveErrAt PW6 PW6.ap = true ∧ (7 : Int) < errUntilAt PW6 PW6.ap) ∧
     envNoInit.initOk = false) ∧
    ((process_advance envNoInit 7 PW6).ap = PW6.ap ∧
     (process_advance envNoInit 7 PW6).fp = PW6.fp ∧
     (process_advance envNoInit 7 PW6).timer_armed = true ∧
     stateAt (process_advance envNoInit 7 PW6) PW6.ap = SState.forgotten ∧
     haveErrAt (process_advance envNoInit 7 PW6) PW6.ap = true ∧
     errUntilAt (process_advance envNoInit 7 PW6) PW6.ap = 7 + RETRY_TIME ∧
     instArgsAt (process_advance envNoInit 7 PW6) PW6.ap = none ∧
     ∀ j, j ≠ PW6.ap →
       (process_advance envNoInit 7 PW6).statements[j]? = PW6.statements[j]?) :=
  ⟨⟨by decide, by decide, by decide, rfl⟩,
   C6_failure_handling (e := AdvanceError.copyFail) envNoInit 7 (by decide) (by decide)
     (by decide) (Or.inr rfl)⟩

/-! ## Claims C7 and C10: command line parsing and exit codes -/

/-- External collaborators of parse_arguments: parse_loglevel and
BLogGlobal_GetChannelByName; a negative result means invalid. -/
structure ParseEnv where
  parseLoglevel : String → Int
  channelByName : String → Int

def LOGGER_STDOUT : Nat := 1

def LOGGER_SYSLOG : Nat := 2

/-- The options struct (non-Windows build, so the syslog options exist). -/
structure Options where
  help : Bool
  version : Bool
  logger : Nat
  loggerSyslogFacility : String
  loggerSyslogIdent : String
  loglevel : Int
  loglevels : Nat → Int
  configFile : Option String

/-- The option loop of parse_arguments (lines 374-461); consuming a
following argument mirrors the C index arithmetic (`1 >= argc - i` holds
exactly when no further entry exists, `2 >= argc - i` when fewer than two
do).  `none` is the `return 0` error path. -/
def parseLoop (env : ParseEnv) (opts : Options) : List String → Option Options
  | [] => some opts
  | arg :: rest =>
    if arg = "--help" then parseLoop env { opts with help := true } rest
    else if arg = "--version" then parseLoop env { opts with version := true } rest
    else if arg = "--logger" then
      match rest with
      | [] => none
      | arg2 :: rest2 =>
        if arg2 = "stdout" then parseLoop env { opts with logger := LOGGER_STDOUT } rest2
        else if arg2 = "syslog" then parseLoop env { opts with logger := LOGGER_SYSLOG } rest2
        else none
    else if arg = "--syslog-facility" then
      match rest with
      | [] => none
      | arg2 :: rest2 => parseLoop env { opts with loggerSyslogFacility := arg2 } rest2
    else if arg = "--syslog-ident" then
      match rest with
      | [] => none
      | arg2 :: rest2 => parseLoop env { opts with loggerSyslogIdent := arg2 } rest2
    else if arg = "--loglevel" then
      match rest with
      | [] => none
      | arg2 :: rest2 =>
        if env.parseLoglevel arg2 < 0 then none
        else parseLoop env { opts with loglevel := env.parseLoglevel arg2 } rest2
    else if arg = "--channel-loglevel" then
      match rest with
      | arg2 :: arg3 :: rest3 =>
        if env.channelByName arg2 < 0 then none
        else if env.parseLoglevel arg3 < 0 then none
        else
          parseLoop env
            { opts with loglevels := fun c =>
                if c = (env.channelByName arg2).toNat then env.parseLoglevel arg3
                else opts.loglevels c } rest3
      | _ => none
    else if arg = "--config-file" then
      match rest with
      | [] => none
      | arg2 :: rest2 => parseLoop env { opts with configFile := some arg2 } rest2
    else none

/-- The defaults set at the top of parse_arguments (lines 361-372);
logger_syslog_ident defaults to argv[0]. -/
def defaultOptions (prog : String) : Options :=
  { help := false, version := false, logger := LOGGER_STDOUT,
    loggerSyslogFacility := "daemon", loggerSyslogIdent := prog,
    loglevel := -1, loglevels := fun _ => -1, configFile := none }

/-- The cons unfolding of the option loop (definitional). -/
theorem parseLoop_cons (env : ParseEnv) (opts : Options) (arg : String)
    (rest : List String) :
    parseLoop env opts (arg :: rest) =
      (if arg = "--help" then parseLoop env { opts with help := true } rest
      else if arg = "--version" then parseLoop env { opts with version := true } rest
      else if arg = "--logger" then
        match rest with
        | [] => none
        | arg2 :: rest2 =>
          if arg2 = "stdout" then parseLoop env { opts with logger := LOGGER_STDOUT } rest2
          else if arg2 = "syslog" then parseLoop env { opts with logger := LOGGER_SYSLOG } rest2
          else none
      else if arg = "--syslog-facility" then
        match rest with
        | [] => none
        | arg2 :: rest2 => parseLoop env { opts with loggerSyslogFacility := arg2 } rest2
      else if arg = "--syslog-ident" then
        match rest with
        | [] => none
        | arg2 :: rest2 => parseLoop env { opts with loggerSyslogIdent := arg2 } rest2
      else if arg = "--loglevel" then
        match rest with
        | [] => none
        | arg2 :: rest2 =>
          if env.parseLoglevel arg2 < 0 then none
          else parseLoop env { opts with loglevel := env.parseLoglevel arg2 } rest2
      else if arg = "--channel-loglevel" then
        match rest with
        | arg2 :: arg3 :: rest3 =>
          if env.channelByName arg2 < 0 then none
          else if env.parseLoglevel arg3 < 0 then none
          else
            parseLoop env
              { opts with loglevels := fun c =>
                  if c = (env.channelByName arg2).toNat then env.parseLoglevel arg3
                  else opts.loglevels c } rest3
        | _ => none
      else if arg = "--config-file" then
        match rest with
        | [] => none
        | arg2 :: rest2 => parseLoop env { opts with configFile := some arg2 } rest2
      else none) := by
  cases rest with
  | nil => rfl
  | cons a2 r2 => cases r2 <;> rfl

/-- parse_arguments (lines 355-473): fail when argc <= 0; after the loop the
required --config-file check is skipped when --help or --version was seen. -/
def parse_arguments (env : ParseEnv) (argv : List String) : Option Options :=
  match argv with
  | [] => none
  | prog :: rest =>
    match parseLoop env (defaultOptions prog) rest with
    | none => none
    | some o =>
      if o.help = true ∨ o.version = true then some o
      else if o.configFile = none then none
      else some o

/-- The outputs of main that the claims mention. -/
inductive OutItem where
  | versionBanner
  | usage
  | parseFailMsg
deriving DecidableEq, Repr

/-- Outcomes of main's fallible startup collaborators. -/
structure MainEnv where
  parseEnv : ParseEnv
  syslogInitOk : Bool
  socketInitOk : Bool
  reactorInitOk : Bool
  processManagerInitOk : Bool
  signalInitOk : Bool
  readFileOk : Bool
  configParseOk : Bool
  globalInitOk : Bool

/-- The startup sequence of main after options are in hand (lines 179-304):
every failure jumps to a cleanup label and falls through to `return 1`, and
a successful run enters the event loop and also ends in `return 1`. -/
def main_startup (env : MainEnv) (o : Options) : Nat × List OutItem :=
  if o.logger = LOGGER_SYSLOG ∧ env.syslogInitOk = false then (1, [])
  else if env.socketInitOk = false then (1, [])
  else if env.reactorInitOk = false then (1, [])
  else if env.processManagerInitOk = false then (1, [])
  else if env.signalInitOk = false then (1, [])
  else if env.readFileOk = false then (1, [])
  else if env.configParseOk = false then (1, [])
  else if env.globalInitOk = false then (1, [])
  else (1, [])

/-- main (lines 155-305), down to the exit code and the help/version
prints. -/
def main_model (env : MainEnv) (argv : List String) : Nat × List OutItem :=
  match argv with
  | [] => (1, [])
  | _ :: _ =>
    match parse_arguments env.parseEnv argv with
    | none => (1, [OutItem.parseFailMsg, OutItem.usage])
    | some o =>
      if o.help = true then (0, [OutItem.versionBanner, OutItem.usage])
      else if o.version = true then (0, [OutItem.versionBanner])
      else main_startup env o

theorem main_startup_fst (env : MainEnv) (o : Options) : (main_startup env o).1 = 1 := by
  unfold main_startup
  split_ifs <;> rfl

/-- Option flags come only from their command-line tokens: if the loop
result has help (resp. version) set, either it was already set in the
starting options or "--help" (resp. "--version") occurs among the
remaining argv entries. -/
theorem parseLoop_flags (env : ParseEnv) :
    ∀ (n : Nat) (rest : List String), rest.length ≤ n → ∀ (opts o : Options),
      parseLoop env opts rest = some o →
      (o.help = true → opts.help = true ∨ "--help" ∈ rest) ∧
      (o.version = true → opts.version = true ∨ "--version" ∈ rest) := by
  intro n
  induction n with
  | zero =>
    intro rest hlen opts o hp
    have hnil : rest = [] := List.eq_nil_of_length_eq_zero (by omega)
    subst hnil
    injection hp with hp
    subst hp
    exact ⟨fun h => Or.inl h, fun h => Or.inl h⟩
  | succ k ih =>
    intro rest hlen opts o hp
    cases rest with
    | nil =>
      injection hp with hp
      subst hp
      exact ⟨fun h => Or.inl h, fun h => Or.inl h⟩
    | cons arg rest1 =>
      have hlen1 : rest1.length ≤ k := by
        simp only [List.length_cons] at hlen
        omega
      have step : ∀ (opts2 : Options) (sub : List String), sub.length ≤ k →
          parseLoop env opts2 sub = some o →
          opts2.help = opts.help → opts2.version = opts.version →
          (∀ x, x ∈ sub → x ∈ arg :: rest1) →
          (o.help = true → opts.help = true ∨ "--help" ∈ arg :: rest1) ∧
          (o.version = true → opts.version = true ∨ "--version" ∈ arg :: rest1) := by
        intro opts2 sub hsub hp2 hh hv hmem
        obtain ⟨H1, H2⟩ := ih sub hsub opts2 o hp2
        constructor
        · intro h
          rcases H1 h with h2 | h2
          · exact Or.inl (hh ▸ h2)
          · exact Or.inr (hmem _ h2)
        · intro h
          rcases H2 h with h2 | h2
          · exact Or.inl (hv ▸ h2)
          · exact Or.inr (hmem _ h2)
      rw [parseLoop_cons] at hp
      by_cases h1 : arg = "--help"
      · rw [if_pos h1] at hp
        obtain ⟨H1, H2⟩ := ih rest1 hlen1 _ o hp
        constructor
        · intro _
          exact Or.inr (by rw [h1]; exact List.mem_cons_self _ _)
        · intro h
          rcases H2 h with h2 | h2
          · exact Or.inl h2
          · exact Or.inr (List.mem_cons_of_mem _ h2)
      · rw [if_neg h1] at hp
        by_cases h2 : arg = "--version"
        · rw [if_pos h2] at hp
          obtain ⟨H1, H2⟩ := ih rest1 hlen1 _ o hp
          constructor
          · intro h
            rcases H1 h with h3 | h3
            · exact Or.inl h3
            · exact Or.inr (List.mem_cons_of_mem _ h3)
          · intro _
            exact Or.inr (by rw [h2]; exact List.mem_cons_self _ _)
        · rw [if_neg h2] at hp
          by_cases h3 : arg = "--logger"
          · rw [if_pos h3] at hp
            cases rest1 with
            | nil => cases hp
            | cons arg2 rest2 =>
              simp only [] at hp
              have hlen2 : rest2.length ≤ k := by
                simp only [List.length_cons] at hlen
                omega
              by_cases h3a : arg2 = "stdout"
              · rw [if_pos h3a] at hp
                exact step _ rest2 hlen2 hp rfl rfl
                  (fun x hx => List.mem_cons_of_mem _ (List.mem_cons_of_mem _ hx))
              · rw [if_neg h3a] at hp
                by_cases h3b : arg2 = "syslog"
                · rw [if_pos h3b] at hp
                  exact step _ rest2 hlen2 hp rfl rfl
                    (fun x hx => List.mem_cons_of_mem _ (List.mem_cons_of_mem _ hx))
                · rw [if_neg h3b] at hp
                  cases hp
          · rw [if_neg h3] at hp
            by_cases h4 : arg = "--syslog-facility"
            · rw [if_pos h4] at hp
              cases rest1 with
              | nil => cases hp
              | cons arg2 rest2 =>
                simp only [] at hp
                have hlen2 : rest2.length ≤ k := by
                  simp only [List.length_cons] at hlen
                  omega
                exact step _ rest2 hlen2 hp rfl rfl
                  (fun x hx => List.mem_cons_of_mem _ (List.mem_cons_of_mem _ hx))
            · rw [if_neg h4] at hp
              by_cases h5 : arg = "--syslog-ident"
              · rw [if_pos h5] at hp
                cases rest1 with
                | nil => cases hp
                | cons arg2 rest2 =>
                  simp only [] at hp
                  have hlen2 : rest2.length ≤ k := by
                    simp only [List.length_cons] at hlen
                    omega
                  exact step _ rest2 hlen2 hp rfl rfl
                    (fun x hx => List.mem_cons_of_mem _ (List.mem_cons_of_mem _ hx))
              · rw [if_neg h5] at hp
                by_cases h6 : arg = "--loglevel"
                · rw [if_pos h6] at hp
                  cases rest1 with
                  | nil => cases hp
                  | cons arg2 rest2 =>
                    simp only [] at hp
                    have hlen2 : rest2.length ≤ k := by
                      simp only [List.length_cons] at hlen
                      omega
                    by_cases h6a : env.parseLoglevel arg2 < 0
                    · rw [if_pos h6a] at hp
                      cases hp
                    · rw [if_neg h6a] at hp
                      exact step _ rest2 hlen2 hp rfl rfl
                        (fun x hx => List.mem_cons_of_mem _ (List.mem_cons_of_mem _ hx))
                · rw [if_neg h6] at hp
                  by_cases h7 : arg = "--channel-loglevel"
                  · rw [if_pos h7] at hp
                    cases rest1 with
                    | nil => cases hp
                    | cons arg2 rest2 =>
                      cases rest2 with
                      | nil => cases hp
                      | cons arg3 rest3 =>
                        simp only [] at hp
                        have hlen3 : rest3.length ≤ k := by
                          simp only [List.length_cons] at hlen
                          omega
                        by_cases h7a : env.channelByName arg2 < 0
                        · rw [if_pos h7a] at hp
                          cases hp
                        · rw [if_neg h7a] at hp
                          by_cases h7b : env.parseLoglevel arg3 < 0
                          · rw [if_pos h7b] at hp
                            cases hp
                          · rw [if_neg h7b] at hp
                            exact step _ rest3 hlen3 hp rfl rfl
                              (fun x hx => List.mem_cons_of_mem _
                                (List.mem_cons_of_mem _ (List.mem_cons_of_mem _ hx)))
                  · rw [if_neg h7] at hp
                    by_cases h8 : arg = "--config-file"
                    · rw [if_pos h8] at hp
                      cases rest1 with
                      | nil => cases hp
                      | cons arg2 rest2 =>
                        simp only [] at hp
                        have hlen2 : rest2.length ≤ k := by
                          simp only [List.length_cons] at hlen
                          omega
                        exact step _ rest2 hlen2 hp rfl rfl
                          (fun x hx => List.mem_cons_of_mem _ (List.mem_cons_of_mem _ hx))
                    · rw [if_neg h8] at hp
                      cases hp

/-- Going through parse_arguments: a parsed help (resp. version) flag comes
from a "--help" (resp. "--version") entry in argv. -/
theorem parse_arguments_help_mem {env : ParseEnv} {argv : List String} {o : Options}
    (h : parse_arguments env argv = some o) :
    (o.help = true → "--help" ∈ argv) ∧ (o.version = true → "--version" ∈ argv) := by
  cases argv with
  | nil => cases h
  | cons prog rest =>
    cases hl : parseLoop env (defaultOptions prog) rest with
    | none =>
      simp only [parse_arguments, hl] at h
      cases h
    | some o2 =>
      simp only [parse_arguments, hl] at h
      have ho2 : o2 = o := by
        by_cases hc : o2.help = true ∨ o2.version = true
        · rw [if_pos hc] at h
          injection h
        · rw [if_neg hc] at h
          by_cases hcf : o2.configFile = none
          · rw [if_pos hcf] at h
            cases h
          · rw [if_neg hcf] at h
            injection h
      subst ho2
      obtain ⟨H1, H2⟩ := parseLoop_flags env rest.length rest (Nat.le_refl _)
        (defaultOptions prog) o2 hl
      constructor
      · intro hh
        rcases H1 hh with h2 | h2
        · cases h2
        · exact List.mem_cons_of_mem _ h2
      · intro hv
        rcases H2 hv with h2 | h2
        · cases h2
        · exact List.mem_cons_of_mem _ h2

/-- C7: the exit code is 0 exactly when the command line parses and carries
--help or --version (after printing the requested output: version banner and
usage for --help, version banner alone for --version); every other path —
argc <= 0, a parse failure, any startup failure, and normal termination
after the event loop — exits 1. -/
theorem C7_exit_codes (env : MainEnv) (argv : List String) :
    ((main_model env argv).1 = 0 ↔
      ∃ o, parse_arguments env.parseEnv argv = some o ∧
        (o.help = true ∨ o.version = true)) ∧
    ((main_model env argv).1 = 0 ∨ (main_model env argv).1 = 1) ∧
    ((main_model env argv).1 = 0 → "--help" ∈ argv ∨ "--version" ∈ argv) ∧
    (∀ o, parse_arguments env.parseEnv argv = some o → o.help = true →
      main_model env argv = (0, [OutItem.versionBanner, OutItem.usage])) ∧
    (∀ o, parse_arguments env.parseEnv argv = some o → o.help = false →
      o.version = true → main_model env argv = (0, [OutItem.versionBanner])) := by
  have main4 :
      ((main_model env argv).1 = 0 ↔
        ∃ o, parse_arguments env.parseEnv argv = some o ∧
          (o.help = true ∨ o.version = true)) ∧
      ((main_model env argv).1 = 0 ∨ (main_model env argv).1 = 1) ∧
      (∀ o, parse_arguments env.parseEnv argv = some o → o.help = true →
        main_model env argv = (0, [OutItem.versionBanner, OutItem.usage])) ∧
      (∀ o, parse_arguments env.parseEnv argv = some o → o.help = false →
        o.version = true → main_model env argv = (0, [OutItem.versionBanner])) := by
    cases argv with
    | nil =>
      refine ⟨?_, Or.inr rfl, ?_, ?_⟩
      · constructor
        · intro h; cases h
        · intro ⟨o, ho, _⟩; cases ho
      · intro o ho; cases ho
      · intro o ho; cases ho
    | cons prog rest =>
      cases hpa : parse_arguments env.parseEnv (prog :: rest) with
      | none =>
        have hm : main_model env (prog :: rest) = (1, [OutItem.parseFailMsg, OutItem.usage]) := by
          simp only [main_model, hpa]
        rw [hm]
        refine ⟨?_, Or.inr rfl, ?_, ?_⟩
        · constructor
          · intro h; cases h
          · intro ⟨o, ho, _⟩; cases ho
        · intro o ho; cases ho
        · intro o ho; cases ho
      | some o =>
        have hm : main_model env (prog :: rest) =
            (if o.help = true then (0, [OutItem.versionBanner, OutItem.usage])
             else if o.version = true then (0, [OutItem.versionBanner])
             else main_startup env o) := by
          simp only [main_model, hpa]
        rw [hm]
        by_cases hh : o.help = true
        · rw [if_pos hh]
          refine ⟨?_, Or.inl rfl, ?_, ?_⟩
          · constructor
            · intro _; exact ⟨o, rfl, Or.inl hh⟩
            · intro _; rfl
          · intro o2 _ _; rfl
          · intro o2 ho2 hh2 _
            injection ho2 with ho2
            subst ho2
            rw [hh] at hh2
            cases hh2
        · rw [if_neg hh]
          by_cases hv : o.version = true
          · rw [if_pos hv]
            refine ⟨?_, Or.inl rfl, ?_, ?_⟩
            · constructor
              · intro _; exact ⟨o, rfl, Or.inr hv⟩
              · intro _; rfl
            · intro o2 ho2 hh2
              injection ho2 with ho2
              subst ho2
              exact absurd hh2 hh
            · intro o2 _ _ _; rfl
          · rw [if_neg hv]
            refine ⟨?_, Or.inr (main_startup_fst env o), ?_, ?_⟩
            · constructor
              · intro h
                rw [main_startup_fst env o] at h
                cases h
              · intro ⟨o2, ho2, hor⟩
                injection ho2 with ho2
                subst ho2
                rcases hor with h | h
                · exact absurd h hh
                · exact absurd h hv
            · intro o2 ho2 hh2
              injection ho2 with ho2
              subst ho2
              exact absurd hh2 hh
            · intro o2 ho2 _ hv2
              injection ho2 with ho2
              subst ho2
              exact absurd hv2 hv

  refine ⟨main4.1, main4.2.1, ?_, main4.2.2.1, main4.2.2.2⟩
  intro h0
  obtain ⟨o, hpa, hor⟩ := main4.1.mp h0
  obtain ⟨H1, H2⟩ := parse_arguments_help_mem hpa
  rcases hor with h | h
  · exact Or.inl (H1 h)
  · exact Or.inr (H2 h)

/-- Concrete environments for the CLI witnesses. -/
def envParse0 : ParseEnv :=
  { parseLoglevel := fun _ => -1, channelByName := fun _ => -1 }

def envMain0 : MainEnv :=
  { parseEnv := envParse0, syslogInitOk := true, socketInitOk := true,
    reactorInitOk := true, processManagerInitOk := true, signalInitOk := true,
    readFileOk := true, configParseOk := true, globalInitOk := true }

theorem C7_exit_codes_witness :
    main_model envMain0 ["ncd", "--help"] = (0, [OutItem.versionBanner, OutItem.usage]) :=
  (C7_exit_codes envMain0 ["ncd", "--help"]).2.2.2.1
    { defaultOptions "ncd" with help := true } rfl rfl

/-- C10 as stated is false: the presence of --help does not make argument
parsing succeed when some other option is malformed; here --logger misses
its argument, so parse_arguments fails (and main exits 1) despite --help. -/
theorem C10_counterexample :
    "--help" ∈ ["ncd", "--help", "--logger"] ∧
    parse_arguments envParse0 ["ncd", "--help", "--logger"] = none ∧
    (main_model envMain0 ["ncd", "--help", "--logger"]).1 = 1 :=
  ⟨by decide, rfl, rfl⟩

/-- C10 amended: when the option loop itself completes (every option
well-formed) and --help or --version was seen, parse_arguments succeeds even
though --config-file is absent — the required-option check is skipped; and
when both --help and --version are given, --help takes precedence: the
version banner and the usage text are both printed and the program exits 0. -/
theorem C10_amended :
    (∀ (env : ParseEnv) (prog : String) (rest : List String) (o : Options),
      parseLoop env (defaultOptions prog) rest = some o →
      (o.help = true ∨ o.version = true) →
      parse_arguments env (prog :: rest) = some o) ∧
    (∀ (env : MainEnv) (argv : List String) (o : Options),
      parse_arguments env.parseEnv argv = some o → o.help = true →
      o.version = true →
      main_model env argv = (0, [OutItem.versionBanner, OutItem.usage])) := by
  constructor
  · intro env prog rest o hloop hor
    simp only [parse_arguments, hloop]
    rw [if_pos hor]
  · intro env argv o hpa hh _
    cases argv with
    | nil => cases hpa
    | cons prog rest =>
      simp only [main_model, hpa]
      rw [if_pos hh]

theorem C10_amended_witness :
    ({ defaultOptions "ncd" with help := true, version := true } : Options).configFile
      = none ∧
    parse_arguments envParse0 ["ncd", "--help", "--version"] =
      some { defaultOptions "ncd" with help := true, version := true } ∧
    main_model envMain0 ["ncd", "--help", "--version"] =
      (0, [OutItem.versionBanner, OutItem.usage]) := by
  have hpa : parse_arguments envParse0 ["ncd", "--help", "--version"] =
      some { defaultOptions "ncd" with help := true, version := true } :=
    C10_amended.1 envParse0 "ncd" ["--help", "--version"]
      { defaultOptions "ncd" with help := true, version := true } rfl (Or.inl rfl)
  exact ⟨rfl, hpa, C10_amended.2 envMain0 ["ncd", "--help", "--version"]
    { defaultOptions "ncd" with help := true, version := true } hpa rfl rfl⟩

/-! ## Claim C8: shutdown idempotence -/

/-- The supervisor state: the set of processes, the latched terminating
flag, and whether BReactor_Quit(1) has been requested. -/
structure Supervisor where
  procs : List Process
  terminating : Bool
  quit : Bool

/-- terminate's per-process call: process_work with terminating set — stop
the wait timer, then retreat; `none` when the process had FP = 0 and was
freed (process_free). -/
def workTerminating (p : Process) : Option Process :=
  process_retreat { p with timer_armed := false }

/-- signal_handler + terminate (lines 307-327, 475-482): ignored when
already terminating; otherwise latch the flag, quit immediately when there
are no processes, else run work on every process, dropping the freed ones;
freeing the last one requests quit. -/
def deliverSignal (s : Supervisor) : Supervisor :=
  if s.terminating then s
  else if s.procs.isEmpty then { s with terminating := true, quit := true }
  else
    let procs2 := s.procs.filterMap workTerminating
    { procs := procs2, terminating := true, quit := s.quit || procs2.isEmpty }

/-- C8: delivering the termination signal more than once yields the same
final state as once — the first delivery latches terminating and invokes
work on every process, and any subsequent delivery changes nothing. -/
theorem C8_signal_idempotent (s : Supervisor) :
    deliverSignal (deliverSignal s) = deliverSignal s ∧
    (deliverSignal s).terminating = true ∧
    (s.terminating = true → deliverSignal s = s) ∧
    (s.terminating = false → s.procs ≠ [] →
      (deliverSignal s).procs = s.procs.filterMap workTerminating) := by
  have hstop : ∀ t : Supervisor, t.terminating = true → deliverSignal t = t := by
    intro t ht
    unfold deliverSignal
    rw [if_pos ht]
  have hterm : (deliverSignal s).terminating = true := by
    unfold deliverSignal
    by_cases h1 : s.terminating = true
    · rw [if_pos h1]; exact h1
    · rw [if_neg h1]
      by_cases h2 : s.procs.isEmpty = true
      · rw [if_pos h2]
      · rw [if_neg h2]
  refine ⟨hstop _ hterm, hterm, hstop s, ?_⟩
  intro h1 h2
  unfold deliverSignal
  rw [if_neg (by rw [h1]; intro hh; cases hh)]
  rw [if_neg (by rw [List.isEmpty_iff]; intro hh; exact h2 hh)]

/-- A one-process supervisor for the C8 witness. -/
def S8 : Supervisor := { procs := [PW6], terminating := false, quit := false }

theorem C8_signal_idempotent_witness :
    deliverSignal (deliverSignal S8) = deliverSignal S8 ∧
    (S8.terminating = false ∧ S8.procs ≠ []) ∧
    (deliverSignal S8).procs = S8.procs.filterMap workTerminating :=
  ⟨(C8_signal_idempotent S8).1, ⟨rfl, List.cons_ne_nil _ _⟩,
   (C8_signal_idempotent S8).2.2.2 rfl (List.cons_ne_nil _ _)⟩

end Ncd
